import Mathlib

/-!
# Verification of the filefeed-react mapping-and-processing pipeline

Shallow embedding of the core data-onboarding pipeline:
auto-mapping of imported headers to schema fields (string similarity and
greedy assignment), the transform → coercion → validation pipeline,
the cross-row uniqueness pass, the chunked processing engine, and the
mapping/row mutations of the workbook store.

JavaScript values are modelled by the inductive `Value` (numbers as `ℚ`
with a separate `NaN`, `Date` objects as an optional integer time value
where `none` is an Invalid Date).  Host-defined behaviour (date-string
parsing, `toISOString` rendering, regular-expression matching) is kept
abstract in a `JsEnv` record.  String-to-number coercion models the
decimal fragment of the JavaScript `Number` function.
-/

namespace Filefeed

/-- A JavaScript runtime value as it occurs in the pipeline. -/
inductive Value where
  | vnull
  | vundef
  | vstr (s : String)
  | vnum (q : ℚ)
  | vnan
  | vbool (b : Bool)
  | vdate (time : Option Int)
  deriving DecidableEq, Repr

/-- A JavaScript object as used for rows: a string-keyed record. -/
abbrev Obj := List (String × Value)

/-- JavaScript `String(v)`.  `Date` rendering is host/timezone dependent and is
modelled by an injective stand-in; non-integer number rendering is likewise a
stand-in (the claims never depend on either). -/
def jsToString : Value → String
  | .vnull => "null"
  | .vundef => "undefined"
  | .vstr s => s
  | .vnum q => if q.den = 1 then toString q.num else toString q.num ++ "/" ++ toString q.den
  | .vnan => "NaN"
  | .vbool b => if b then "true" else "false"
  | .vdate none => "Invalid Date"
  | .vdate (some t) => "[Date " ++ toString t ++ "]"

/-- JavaScript truthiness. -/
def jsTruthy : Value → Bool
  | .vnull => false
  | .vundef => false
  | .vstr s => s != ""
  | .vnum q => q != 0
  | .vnan => false
  | .vbool b => b
  | .vdate _ => true

/-- ASCII lower-casing of one character (the only case conversion the
pipeline's inputs exercise; `String.toLower` is modelled by this). -/
def asciiLower (c : Char) : Char :=
  if 'A' ≤ c ∧ c ≤ 'Z' then Char.ofNat (c.toNat + 32) else c

/-- `String.toLowerCase()`. -/
def strLower (s : String) : String := String.mk (s.data.map asciiLower)

/-- JavaScript `\s` membership for the characters relevant here. -/
def jsWhitespace (c : Char) : Bool :=
  c = ' ' ∨ c = '\t' ∨ c = '\n' ∨ c = '\r' ∨ c = '\x0b' ∨ c = '\x0c'

/-- `String.trim()`: strip leading and trailing whitespace. -/
def strTrim (s : String) : String :=
  String.mk (((s.data.dropWhile jsWhitespace).reverse.dropWhile jsWhitespace).reverse)

/-- Split a character list on a separator character (the semantics of
`String.split` with a one-character separator). -/
def splitOnChar (sep : Char) : List Char → List (List Char)
  | [] => [[]]
  | c :: rest =>
      let r := splitOnChar sep rest
      if c = sep then [] :: r
      else
        match r with
        | g :: gs => (c :: g) :: gs
        | [] => [[c]]

/-- Numeric value of a list of decimal digit characters. -/
def digitsVal (cs : List Char) : Nat :=
  cs.foldl (fun a c => a * 10 + (c.toNat - '0'.toNat)) 0

/-- The decimal fragment of JavaScript string-to-number coercion:
trimmed empty string is 0; an optional sign followed by decimal digits with an
optional fractional part parses to that rational; everything else (hex,
exponent forms, `Infinity`, garbage) is modelled as `NaN` (`none`). -/
def parseJsNumber (s : String) : Option ℚ :=
  let t := (strTrim s).data
  if t = [] then some 0
  else
    let sign : ℚ := match t with | '-' :: _ => -1 | _ => 1
    let body := match t with
      | '-' :: rest => rest
      | '+' :: rest => rest
      | _ => t
    match splitOnChar '.' body with
    | [ip] =>
        if ip ≠ [] ∧ ip.all (·.isDigit) then some (sign * (digitsVal ip : ℚ))
        else none
    | [ip, fp] =>
        if (ip ≠ [] ∨ fp ≠ []) ∧ ip.all (·.isDigit) ∧ fp.all (·.isDigit) then
          some (sign * ((digitsVal ip : ℚ) + (digitsVal fp : ℚ) / (10 : ℚ) ^ fp.length))
        else none
    | _ => none

/-- JavaScript `Number(v)`; `none` is `NaN`. -/
def jsNumber : Value → Option ℚ
  | .vnull => some 0
  | .vundef => none
  | .vstr s => parseJsNumber s
  | .vnum q => some q
  | .vnan => none
  | .vbool b => some (if b then 1 else 0)
  | .vdate none => none
  | .vdate (some t) => some (t : ℚ)

/-- JavaScript `<` on numbers: any comparison involving `NaN` is false. -/
def jsLt (a b : Option ℚ) : Bool :=
  match a, b with
  | some x, some y => decide (x < y)
  | _, _ => false

/-- JavaScript `>` on numbers: any comparison involving `NaN` is false. -/
def jsGt (a b : Option ℚ) : Bool :=
  match a, b with
  | some x, some y => decide (y < x)
  | _, _ => false

/-- Property lookup `o[k]`: `undefined` when the key is absent. -/
def objGet (o : Obj) (k : String) : Value :=
  ((o.find? (fun p => p.1 == k)).map Prod.snd).getD Value.vundef

/-- The JavaScript `in` operator (key presence, even when the value is `undefined`). -/
def objHas (o : Obj) (k : String) : Bool :=
  o.any (fun p => p.1 == k)

/-- Property assignment `o[k] = v`: overwrites in place, else appends. -/
def objSet (o : Obj) (k : String) (v : Value) : Obj :=
  if objHas o k then o.map (fun p => if p.1 == k then (p.1, v) else p)
  else o ++ [(k, v)]

/-! ## String similarity (calculateSimilarity) -/

/-- One inner loop of the Levenshtein DP in `calculateSimilarity`: given the
previous matrix row (starting at the diagonal cell), the remaining characters of
`str1`, and the cell to the left, produce the rest of the current row. -/
def levRow (c2 : Char) : List Char → List Nat → Nat → List Nat
  | [], _, _ => []
  | c1 :: cs, diag :: rest, left =>
      let up := rest.headD 0
      let cell := min (left + 1) (min (up + 1) (diag + (if c1 = c2 then 0 else 1)))
      cell :: levRow c2 (cs) rest cell
  | _ :: _, [], _ => []

/-- The Levenshtein distance computed by the DP matrix in `calculateSimilarity`
(row 0 is `0..len1`; each row `j` starts with `j`). -/
def levDistance (str1 str2 : String) : Nat :=
  let cs1 := str1.data
  let final := (str2.data.foldl
    (fun (acc : List Nat × Nat) c2 =>
      let j := acc.2 + 1
      (j :: levRow c2 cs1 acc.1 j, j))
    (List.range (cs1.length + 1), 0)).1
  final.getLastD 0

/-- `calculateSimilarity`: `1 - distance / max(len1, len2)`, and 1 when both
strings are empty. -/
def calculateSimilarity (str1 str2 : String) : ℚ :=
  let distance := levDistance str1 str2
  let maxLength := max str1.length str2.length
  if maxLength = 0 then 1 else 1 - (distance : ℚ) / (maxLength : ℚ)

/-! ## Schema types -/

/-- A declared validation rule (`ValidationRule`); `value` and `args` are `any`
in the source and modelled as `Value`. -/
structure ValidationRule where
  type : String
  value : Value := .vundef
  message : String
  name : Option String := none
  args : Value := .vundef
  deriving DecidableEq, Repr

/-- A schema field (`FieldConfig`).  `type` is one of
string/number/email/date/boolean; it stays a `String` because the coercion
switch has a pass-through default branch. -/
structure FieldConfig where
  key : String
  label : String
  type : String
  required : Bool := false
  unique : Bool := false
  validations : List ValidationRule := []
  defaultTransform : Option String := none
  deriving DecidableEq, Repr

/-! ## Auto-mapping (generateAutoMapping) -/

/-- A scored (field, confidence) candidate for one header. -/
structure Candidate where
  key : String
  confidence : ℚ
  deriving DecidableEq, Repr

/-- The candidate confidence computed inside `generateAutoMapping`:
`calculateSimilarity(header, label) || calculateSimilarity(header, key)`.
JavaScript `||` keeps the label similarity unless it is `0` (falsy), in which
case it falls back to the key similarity. -/
def candidateConfidence (header : String) (field : FieldConfig) : ℚ :=
  if calculateSimilarity (strLower header) (strLower field.label) ≠ 0 then
    calculateSimilarity (strLower header) (strLower field.label)
  else calculateSimilarity (strLower header) (strLower field.key)

/-- Stable insertion into a list sorted descending by `keyf` (equal keys keep
the inserted element first, matching a stable JavaScript sort with comparator
`(a, b) => keyf b - keyf a`). -/
def insertDescBy {α : Type} (keyf : α → ℚ) (a : α) : List α → List α
  | [] => [a]
  | x :: xs => if keyf a < keyf x then x :: insertDescBy keyf a xs else a :: x :: xs

/-- Stable sort, descending by `keyf`. -/
def sortDescBy {α : Type} (keyf : α → ℚ) : List α → List α
  | [] => []
  | x :: xs => insertDescBy keyf x (sortDescBy keyf xs)

/-- Per-header candidate record built by `generateAutoMapping`. -/
structure HeaderCandidates where
  header : String
  candidates : List Candidate
  best : ℚ
  deriving Repr

/-- The per-header candidate list: all fields scored by `candidateConfidence`,
filtered to scores strictly above the threshold, sorted descending. -/
def headerCandidateList (fields : List FieldConfig) (confidenceThreshold : ℚ)
    (header : String) : List Candidate :=
  sortDescBy Candidate.confidence
    ((fields.map fun field => Candidate.mk field.key (candidateConfidence header field)).filter
      fun c => decide (confidenceThreshold < c.confidence))

/-- `generateAutoMapping`: build each header's sorted candidate list, sort the
headers by their best candidate score (descending, stable), then let each
header greedily take its highest-scoring not-yet-claimed candidate; headers
with no available candidate map to `null`.  The result is the built mapping
object as an association list in insertion (i.e. sorted-header) order.
The source default for `confidenceThreshold` is `0.7`. -/
def generateAutoMapping (importedHeaders : List String) (fields : List FieldConfig)
    (confidenceThreshold : ℚ) : List (String × Option String) :=
  let headerCandidates := importedHeaders.map fun header =>
    let candidates := headerCandidateList fields confidenceThreshold header
    let best := ((candidates.head?).map Candidate.confidence).getD 0
    HeaderCandidates.mk header candidates best
  let sorted := sortDescBy HeaderCandidates.best headerCandidates
  let assign := sorted.foldl
    (fun (acc : List (String × Option String) × List String) item =>
      match item.candidates.find? (fun c => !acc.2.contains c.key) with
      | some pick => ((item.header, some pick.key) :: acc.1, pick.key :: acc.2)
      | none => ((item.header, none) :: acc.1, acc.2))
    ([], [])
  assign.1.reverse

/-- Lookup in a mapping association list (`mapping[header]`). -/
def mappingLookup (m : List (String × Option String)) (h : String) : Option (Option String) :=
  (m.find? (fun e => e.1 == h)).map Prod.snd

/-- A (header, field, score) pair of the spec's global ranking. -/
structure SpecPair where
  header : String
  fieldKey : String
  score : ℚ
  deriving DecidableEq, Repr

/-- Modelled from the spec (§4.1), for comparison with `generateAutoMapping`:
rank ALL (header, field) candidate pairs with score strictly above the
threshold globally by score descending (stable, pairs enumerated header-major
so ties keep original header order), assign greedily in that order skipping
any pair whose field or header is already claimed; unclaimed headers map to
`null`. -/
def specGlobalRankMapping (headers : List String) (fields : List FieldConfig)
    (thr : ℚ) : List (String × Option String) :=
  let pairs := (headers.map fun h =>
    (fields.map fun f => SpecPair.mk h f.key (candidateConfidence h f)).filter
      fun p => decide (thr < p.score)).flatten
  let ranked := sortDescBy SpecPair.score pairs
  let assigned := ranked.foldl
    (fun (acc : List (String × String)) p =>
      if acc.any (fun e => e.1 == p.header) || acc.any (fun e => e.2 == p.fieldKey) then acc
      else (p.header, p.fieldKey) :: acc)
    []
  headers.map fun h => (h, (assigned.find? (fun e => e.1 == h)).map Prod.snd)

/-- Modelled from the spec (§4.1 / claim C2): "a field's candidate score is the
greater of the two" similarities, against the label and against the key. -/
def specCandidateScore (header : String) (field : FieldConfig) : ℚ :=
  max (calculateSimilarity (strLower header) (strLower field.label))
    (calculateSimilarity (strLower header) (strLower field.key))

/-! ## Host environment and transforms -/

/-- Host-defined behaviour kept abstract: `Date.parse` / `new Date(string)`
(returning the clipped time value, `none` for an unparseable string),
`Date.prototype.toISOString` on a valid time value, and
`new RegExp(pattern).test(s)`. -/
structure JsEnv where
  parseStr : String → Option Int
  iso : Int → String
  regexTest : String → String → Bool

/-- A transform registry entry: a consumer-supplied function that may throw
(modelled by the `Except` error channel). -/
abbrev TransformRegistry := List (String × (Value → Except String Value))

/-- JavaScript truthiness of an optional string (`undefined` and `""` falsy). -/
def strTruthy : Option String → Bool
  | none => false
  | some s => s != ""

/-- Registry lookup `registry?.[name]`. -/
def regLookup (registry : Option TransformRegistry) (n : String) :
    Option (Value → Except String Value) :=
  registry.bind fun r => (r.find? (fun p => p.1 == n)).map Prod.snd

/-- `applyNamedTransform`: no transform name (or an empty, falsy one) returns
the value; a missing registry entry returns the value; a throwing transform is
caught and returns the value. -/
def applyNamedTransform (value : Value) (transformName : Option String)
    (registry : Option TransformRegistry) : Value :=
  if !strTruthy transformName then value
  else
    match transformName.bind (regLookup registry) with
    | some fn =>
        match fn value with
        | .ok v => v
        | .error _ => value
    | none => value

/-- Whether a value is null, undefined or the empty string (the emptiness test
used by the coercion guard, the required check and the type-check guard). -/
def isEmptyValue (value : Value) : Prop :=
  value = .vnull ∨ value = .vundef ∨ value = .vstr ""

instance (value : Value) : Decidable (isEmptyValue value) := by
  unfold isEmptyValue; infer_instance

/-! ## Type coercion (transformValue) -/

/-- `Date.UTC(1899, 11, 30)`: the Excel epoch, in ms before the Unix epoch. -/
def excelEpochMs : Int := -2209161600000

/-- `Math.round`: round half toward positive infinity. -/
def mathRound (q : ℚ) : Int := ⌊q + 1/2⌋

/-- Truncation toward zero (JavaScript ToIntegerOrInfinity on a finite value). -/
def ratTrunc (q : ℚ) : Int := if q < 0 then ⌈q⌉ else ⌊q⌋

/-- TimeClip: a `Date` time value is valid iff its magnitude is at most
8.64e15 ms. -/
def timeClip (t : Int) : Option Int :=
  if t.natAbs ≤ 8640000000000000 then some t else none

/-- `excelSerialToDate`: `new Date(excelEpoch + Math.round(serial * 86400000))`,
as a time value (`none` would be an invalid date). -/
def excelSerialToDate (serial : ℚ) : Option Int :=
  timeClip (excelEpochMs + mathRound (serial * 86400000))

/-- `new Date(v)` for a numeric argument: invalid beyond the TimeClip range,
else the ms value truncated toward zero. -/
def jsDateOfNumber (q : ℚ) : Option Int :=
  if |q| ≤ (8640000000000000 : ℚ) then some (ratTrunc q) else none

/-- The coercion switch of `transformValue` past the empty-value guard:
`string` trims; `number` applies `Number`; `boolean` is true iff the lowercased
string form is "true"/"1"/"yes"; `date` follows the Date-instance /
Excel-serial-or-timestamp / string-parse branches of the source; unknown types
pass through. -/
def transformValueCore (env : JsEnv) (value : Value) (fieldType : String) : Value :=
    match fieldType with
    | "string" => .vstr (strTrim (jsToString value))
    | "number" =>
        match jsNumber value with
        | some q => .vnum q
        | none => .vnan
    | "boolean" =>
        let str := strLower (jsToString value)
        .vbool (str == "true" || str == "1" || str == "yes")
    | "date" =>
        match value with
        | .vdate t =>
            match t with
            | some ms => .vstr (env.iso ms)
            | none => value
        | .vnum q =>
            let maybeExcel := decide (59 < q) && decide (q < 600000)
            let d := if maybeExcel then excelSerialToDate q else jsDateOfNumber q
            match d with
            | some ms => .vstr (env.iso ms)
            | none => value
        | .vnan => value
        | .vstr s =>
            let s' := strTrim s
            if s' = "" then .vnull
            else
              match env.parseStr s' with
              | some ms => .vstr (env.iso ms)
              | none => .vstr s'
        | _ => value
    | _ => value

/-- `transformValue(value, fieldType)`: type coercion.  Null, undefined and the
empty string pass through unchanged; otherwise the coercion switch applies. -/
def transformValue (env : JsEnv) (value : Value) (fieldType : String) : Value :=
  if isEmptyValue value then value
  else transformValueCore env value fieldType

/-! ## Validation engine (validateFieldWithRegistry) -/

/-- A typed validation error. -/
structure ValidationError where
  row : Int
  field : String
  message : String
  severity : String
  deriving DecidableEq, Repr

/-- What a custom validator may return: `false`/`true`, a message string, a
partial error object (omitted properties are `none`), or null/undefined. -/
inductive VResult where
  | bool (b : Bool)
  | str (s : String)
  | obj (row : Option Int) (field : Option String) (message : Option String)
      (severity : Option String)
  | nullish
  deriving DecidableEq, Repr

/-- Registry of custom validators
`(value, field, rowIndex, rowData, args) => ...`. -/
abbrev ValidationRegistry :=
  List (String × (Value → FieldConfig → Int → Obj → Value → VResult))

/-- Validation registry lookup. -/
def vregLookup (registry : Option ValidationRegistry) (n : String) :
    Option (Value → FieldConfig → Int → Obj → Value → VResult) :=
  registry.bind fun r => (r.find? (fun p => p.1 == n)).map Prod.snd

/-- The email pattern `^[^\s@]+@[^\s@]+\.[^\s@]+$`: no whitespace, exactly one
`@` with a nonempty local part, and a `.` strictly inside the domain part. -/
def emailRegexTest (s : String) : Bool :=
  (!s.data.any jsWhitespace) &&
  (match splitOnChar '@' s.data with
   | [lp, dp] => lp ≠ [] && ((dp.drop 1).dropLast.contains '.')
   | _ => false)

/-- The accepted boolean spellings of the type check. -/
def booleanValues : List String := ["true", "false", "1", "0", "yes", "no"]

/-- The type-validation switch of `validateFieldWithRegistry` (it runs only on
non-empty values). -/
def typeCheckErrors (env : JsEnv) (value : Value) (field : FieldConfig)
    (rowIndex : Int) : List ValidationError :=
  if isEmptyValue value then []
  else
    match field.type with
    | "number" =>
        if (jsNumber value).isNone then
          [⟨rowIndex, field.key, field.label ++ " must be a valid number", "error"⟩]
        else []
    | "email" =>
        if !emailRegexTest (jsToString value) then
          [⟨rowIndex, field.key, field.label ++ " must be a valid email address", "error"⟩]
        else []
    | "date" =>
        if (env.parseStr (jsToString value)).isNone then
          [⟨rowIndex, field.key, field.label ++ " must be a valid date", "error"⟩]
        else []
    | "boolean" =>
        if !booleanValues.contains (strLower (jsToString value)) then
          [⟨rowIndex, field.key, field.label ++ " must be a valid boolean value", "error"⟩]
        else []
    | _ => []

/-- `validateRule`: the declared-rule switch (regex / min / max; `custom` is a
no-op here). -/
def validateRule (env : JsEnv) (value : Value) (rule : ValidationRule)
    (field : FieldConfig) (rowIndex : Int) : Option ValidationError :=
  match rule.type with
  | "regex" =>
      if jsTruthy value && !env.regexTest (jsToString rule.value) (jsToString value) then
        some ⟨rowIndex, field.key, rule.message, "error"⟩
      else none
  | "min" =>
      if field.type == "number" && jsLt (jsNumber value) (jsNumber rule.value) then
        some ⟨rowIndex, field.key, rule.message, "error"⟩
      else if field.type == "string" &&
          jsLt (some ((jsToString value).length : ℚ)) (jsNumber rule.value) then
        some ⟨rowIndex, field.key, rule.message, "error"⟩
      else none
  | "max" =>
      if field.type == "number" && jsGt (jsNumber value) (jsNumber rule.value) then
        some ⟨rowIndex, field.key, rule.message, "error"⟩
      else if field.type == "string" &&
          jsGt (some ((jsToString value).length : ℚ)) (jsNumber rule.value) then
        some ⟨rowIndex, field.key, rule.message, "error"⟩
      else none
  | _ => none

/-- The fallback message chain `validation.message || label + " failed validation"`. -/
def ruleFallbackMessage (rule : ValidationRule) (field : FieldConfig) : String :=
  if rule.message != "" then rule.message else field.label ++ " failed validation"

/-- Errors produced from a custom validator's return value: `false` uses the
rule's (or fallback) message; a string becomes the message; an object is a
pre-built error with per-property fallbacks; `true`/null/undefined are valid. -/
def customResultErrors (res : VResult) (rule : ValidationRule) (field : FieldConfig)
    (rowIndex : Int) : List ValidationError :=
  match res with
  | .bool false => [⟨rowIndex, field.key, ruleFallbackMessage rule field, "error"⟩]
  | .bool true => []
  | .str s => [⟨rowIndex, field.key, s, "error"⟩]
  | .obj r f m sev =>
      [⟨r.getD rowIndex, f.getD field.key,
        (match m with
         | some msg => if msg != "" then msg else ruleFallbackMessage rule field
         | none => ruleFallbackMessage rule field),
        (match sev with
         | some sv => if sv != "" then sv else "error"
         | none => "error")⟩]
  | .nullish => []

/-- The declared-rule loop of `validateFieldWithRegistry`: a `custom` rule with
a registered function uses the registry; otherwise `validateRule` applies (a
missing registry entry falls through to `validateRule`, whose `custom` case is
a no-op). -/
def ruleErrors (env : JsEnv) (value : Value) (field : FieldConfig) (rowIndex : Int)
    (rowData : Obj) (registry : Option ValidationRegistry) : List ValidationError :=
  field.validations.foldl
    (fun acc rule =>
      if rule.type == "custom" && registry.isSome && strTruthy rule.name then
        match rule.name.bind (vregLookup registry) with
        | some fn =>
            acc ++ customResultErrors (fn value field rowIndex rowData rule.args)
              rule field rowIndex
        | none =>
            match validateRule env value rule field rowIndex with
            | some e => acc ++ [e]
            | none => acc
      else
        match validateRule env value rule field rowIndex with
        | some e => acc ++ [e]
        | none => acc)
    []

/-- `validateFieldWithRegistry`: required check short-circuits; then the type
check and the declared rules accumulate. -/
def validateFieldWithRegistry (env : JsEnv) (value : Value) (field : FieldConfig)
    (rowIndex : Int) (rowData : Obj) (registry : Option ValidationRegistry) :
    List ValidationError :=
  if field.required ∧ isEmptyValue value then
    [⟨rowIndex, field.key, field.label ++ " is required", "error"⟩]
  else
    typeCheckErrors env value field rowIndex ++
      ruleErrors env value field rowIndex rowData registry

/-! ## Row processing (processImportedDataWithMappings) -/

/-- A header → field mapping. -/
structure FieldMapping where
  source : String
  target : String
  transform : Option String := none
  confidence : Option ℚ := none
  deriving DecidableEq, Repr

/-- Canonical pipeline mappings (only `fieldMappings` matters to the
processing core; delimiter/validation options are ignored by it). -/
structure PipelineMappings where
  fieldMappings : List FieldMapping
  deriving DecidableEq, Repr

/-- A processed row. -/
structure DataRow where
  id : String
  data : Obj
  errors : List ValidationError
  isValid : Bool
  deriving DecidableEq, Repr

/-- Imported data (headers plus raw rows). -/
structure ImportedData where
  headers : List String
  rows : List Obj
  deriving Repr

/-- `errors.filter(e => e.severity === "error").length === 0`. -/
def noErrorSeverity (errors : List ValidationError) : Bool :=
  (errors.filter (fun e => e.severity == "error")).length == 0

/-- The body shared by the two per-row mapping loops (it is duplicated
verbatim in the source between `processImportedDataWithMappings` and
`processDataChunked`): resolve the transform (mapping-level `transform ??
field.defaultTransform`), apply it, coerce to the field's type, store under
the target, and validate against the partially processed row. -/
def processMappingStep (env : JsEnv) (fields : List FieldConfig)
    (registry : Option TransformRegistry) (vRegistry : Option ValidationRegistry)
    (row : Obj) (index : Int) (acc : Obj × List ValidationError)
    (m : FieldMapping) : Obj × List ValidationError :=
  match fields.find? (fun f => f.key == m.target) with
  | none => acc
  | some field =>
      let tName := match m.transform with
        | some t => some t
        | none => field.defaultTransform
      let v := applyNamedTransform (objGet row m.source) tName registry
      let coerced := transformValue env v field.type
      let out := objSet acc.1 m.target coerced
      (out, acc.2 ++ validateFieldWithRegistry env coerced field index out vRegistry)

/-- The per-row mapping/transform/coercion/validation loop of
`processImportedDataWithMappings`: mappings whose source is absent from the
row are skipped (`if (!(source in row)) continue`). -/
def processRowPipeline (env : JsEnv) (fields : List FieldConfig)
    (mappings : List FieldMapping) (registry : Option TransformRegistry)
    (vRegistry : Option ValidationRegistry) (row : Obj) (index : Int) :
    Obj × List ValidationError :=
  mappings.foldl
    (fun acc m =>
      if !objHas row m.source then acc
      else processMappingStep env fields registry vRegistry row index acc m)
    ([], [])

/-- The synthetic "required but not mapped" errors for required fields whose
key never got populated. -/
def requiredMissingErrors (fields : List FieldConfig) (processed : Obj)
    (index : Int) : List ValidationError :=
  (fields.filter (fun f => f.required && !objHas processed f.key)).map
    (fun f => ⟨index, f.key, f.label ++ " is required but not mapped", "error"⟩)

/-- One row of `processImportedDataWithMappings` (before the uniqueness pass). -/
def processRowSingle (env : JsEnv) (fields : List FieldConfig)
    (mappings : List FieldMapping) (registry : Option TransformRegistry)
    (vRegistry : Option ValidationRegistry) (row : Obj) (index : Nat) : DataRow :=
  let pe := processRowPipeline env fields mappings registry vRegistry row (index : Int)
  let errors := pe.2 ++ requiredMissingErrors fields pe.1 (index : Int)
  { id := "row-" ++ toString index, data := pe.1, errors := errors,
    isValid := noErrorSeverity errors }

/-- Replace the element at index `i` (no-op when out of range). -/
def listModify {α : Type} (l : List α) (i : Nat) (f : α → α) : List α :=
  match l, i with
  | [], _ => []
  | x :: xs, 0 => f x :: xs
  | x :: xs, n + 1 => x :: listModify xs n f

/-- The duplicate-value error pushed (and `isValid` forced to false) on a row
by the uniqueness pass. -/
def addDupError (f : FieldConfig) (keyStr : String) (rowIdx : Nat)
    (rows : List DataRow) : List DataRow :=
  listModify rows rowIdx (fun r =>
    { r with
      errors := r.errors ++ [⟨(rowIdx : Int), f.key,
        f.label ++ " must be unique. Duplicate value '" ++ keyStr ++ "' found", "error"⟩],
      isValid := false })

/-- One iteration of the uniqueness scan at row index `idx`: skip
empty/null/undefined values; on a first sighting record (stringified value,
index) in the first-seen map; on a repeat push a duplicate error onto BOTH the
first-seen row and the current row. -/
def uniqStep (f : FieldConfig) (acc : List DataRow × List (String × Nat))
    (idx : Nat) : List DataRow × List (String × Nat) :=
  match acc.1.get? idx with
  | none => acc
  | some r =>
      let val := objGet r.data f.key
      if val = .vundef ∨ val = .vnull ∨ val = .vstr "" then acc
      else
        let key := jsToString val
        match acc.2.find? (fun p => p.1 == key) with
        | some p => (addDupError f key idx (addDupError f key p.2 acc.1), acc.2)
        | none => (acc.1, acc.2 ++ [(key, idx)])

/-- The uniqueness scan for one `unique` field: walk the rows in order with a
first-seen map keyed by the stringified value (`uniqStep`). -/
def uniquePassField (rows : List DataRow) (f : FieldConfig) : List DataRow :=
  ((List.range rows.length).foldl (uniqStep f) (rows, [])).1

/-- The full uniqueness pass over every field marked `unique` (this code block
is shared verbatim between `processImportedDataWithMappings` and
`processDataChunked` in the source). -/
def uniquenessPass (fields : List FieldConfig) (rows : List DataRow) : List DataRow :=
  (fields.filter (fun f => f.unique)).foldl uniquePassField rows

/-- `processImportedDataWithMappings`: map every raw row through the per-row
pipeline (ids `row-<index>`), then run the uniqueness pass. -/
def processImportedDataWithMappings (env : JsEnv) (importedData : ImportedData)
    (fields : List FieldConfig) (pipeline : PipelineMappings)
    (registry : Option TransformRegistry) (vRegistry : Option ValidationRegistry) :
    List DataRow :=
  let rows := importedData.rows.enum.map fun p =>
    processRowSingle env fields pipeline.fieldMappings registry vRegistry p.2 p.1
  uniquenessPass fields rows

/-! ## Chunked processing engine (processDataChunked) -/

/-- One row of `processDataChunked`'s inner loop.  It duplicates the single-pass
per-row step except that its skip condition is
`if (!(source in row) || !target) continue;` — it additionally skips mappings
with an empty (falsy) target. -/
def processRowChunked (env : JsEnv) (fields : List FieldConfig)
    (mappings : List FieldMapping) (registry : Option TransformRegistry)
    (vRegistry : Option ValidationRegistry) (row : Obj) (index : Nat) : DataRow :=
  let pe := mappings.foldl
    (fun acc m =>
      if !objHas row m.source || m.target == "" then acc
      else processMappingStep env fields registry vRegistry row (index : Int) acc m)
    ([], [])
  let errors := pe.2 ++ requiredMissingErrors fields pe.1 (index : Int)
  { id := "row-" ++ toString index, data := pe.1, errors := errors,
    isValid := noErrorSeverity errors }

/-- The effective batch size: the configured `chunkSize` when it is a positive
number, else 2000. -/
def effectiveBatchSize (chunkSize : Option Int) : Nat :=
  match chunkSize with
  | some k => if 0 < k then k.toNat else 2000
  | none => 2000

theorem effectiveBatchSize_pos (chunkSize : Option Int) : 0 < effectiveBatchSize chunkSize := by
  unfold effectiveBatchSize
  cases chunkSize with
  | none => decide
  | some k => dsimp only; split <;> omega

/-- The batch loop of a `processDataChunked` run that is never cancelled or
superseded: process rows `start, start+1, …` in batches of `B`, accumulating
the processed rows (the per-batch `set`/yield of partial results does not
affect the final value and is dropped).  `fuel` only bounds the number of loop
iterations so the recursion is structural; since a positive `B` advances
`start` by at least one per iteration, fuel `rows.length` is always enough. -/
def processChunkedFrom (env : JsEnv) (rows : List Obj) (fields : List FieldConfig)
    (mappings : List FieldMapping) (registry : Option TransformRegistry)
    (vRegistry : Option ValidationRegistry) (B : Nat) :
    Nat → Nat → List DataRow → List DataRow
  | 0, _, acc => acc
  | fuel + 1, start, acc =>
      if start < rows.length then
        let endIdx := min rows.length (start + B)
        let batch := (List.range' start (endIdx - start)).map fun index =>
          processRowChunked env fields mappings registry vRegistry
            ((rows.get? index).getD []) index
        processChunkedFrom env rows fields mappings registry vRegistry B fuel endIdx
          (acc ++ batch)
      else acc

/-- The final processed rows of an uncancelled `processDataChunked` run with
the pipeline-mappings branch active: the batch loop over all rows, then the
uniqueness pass. -/
def processDataChunked (env : JsEnv) (importedData : ImportedData)
    (fields : List FieldConfig) (pipeline : PipelineMappings)
    (registry : Option TransformRegistry) (vRegistry : Option ValidationRegistry)
    (chunkSize : Option Int) : List DataRow :=
  let B := effectiveBatchSize chunkSize
  let processed := processChunkedFrom env importedData.rows fields
    pipeline.fieldMappings registry vRegistry B importedData.rows.length 0 []
  uniquenessPass fields processed

/-! ## Mapping state controller (workbookStore) -/

/-- The `pipelineMappings.fieldMappings` update performed by the store's
`updateMapping(sourceColumn, targetField)` action: drop this source's entries;
when the new target is truthy also drop entries with that target, resolve the
transform (the source's existing truthy transform, else the target field's
`defaultTransform`), and append the new mapping. -/
def updateMappingFieldMappings (fields : List FieldConfig)
    (existing : List FieldMapping) (sourceColumn : String)
    (targetField : Option String) : List FieldMapping :=
  let next := existing.filter (fun m => m.source != sourceColumn)
  match targetField with
  | some tgt =>
      if tgt != "" then
        let next2 := next.filter (fun m => m.target != tgt)
        let t0 := (existing.find? (fun m => m.source == sourceColumn)).bind
          FieldMapping.transform
        let transform := if strTruthy t0 then t0
          else (fields.find? (fun f => f.key == tgt)).bind FieldConfig.defaultTransform
        next2 ++ [{ source := sourceColumn, target := tgt, transform := transform }]
      else next
  | none => next

/-- `Map.set` on an association list: overwrite in place, else append (JS `Map`
keeps first-insertion key order). -/
def mapSetAssoc {α : Type} (k : String) (v : α) : List (String × α) → List (String × α)
  | [] => [(k, v)]
  | (k', v') :: rest => if k' == k then (k', v) :: rest else (k', v') :: mapSetAssoc k v rest

/-- The compaction performed by the store's `setFieldMappings(list)` action:
drop entries with a falsy target, then dedupe by target, last occurrence
winning (via a JS `Map` keyed by target). -/
def setFieldMappingsCompacted (fieldMappings : List FieldMapping) : List FieldMapping :=
  (fieldMappings.foldl
    (fun acc m => if m.target == "" then acc else mapSetAssoc m.target m acc) []).map
    Prod.snd

/-! ## Review-step row mutations (workbookStore) -/

/-- The store's `updateRowData(rowId, fieldKey, value)` action: in every row
whose id matches, store the raw value under the field key, drop that field's
prior errors, re-validate that field (raw, against the updated row data) when
the field exists in the sheet, and recompute `isValid`. -/
def updateRowData (env : JsEnv) (fields : List FieldConfig)
    (vRegistry : Option ValidationRegistry) (processedData : List DataRow)
    (rowId fieldKey : String) (value : Value) : List DataRow :=
  processedData.map fun row =>
    if row.id == rowId then
      let newData := objSet row.data fieldKey value
      let baseErrors := row.errors.filter (fun e => e.field != fieldKey)
      let errors := match fields.find? (fun f => f.key == fieldKey) with
        | some field =>
            let rowIndex : Int := match processedData.findIdx? (fun r => r.id == rowId) with
              | some i => (i : Int)
              | none => -1
            baseErrors ++ validateFieldWithRegistry env value field rowIndex newData vRegistry
        | none => baseErrors
      { row with data := newData, errors := errors, isValid := noErrorSeverity errors }
    else row

/-- The store's `addRow` action: append a fresh empty row with id
`row-<Date.now()>`, no errors, and `isValid = false`. -/
def addRow (now : Int) (processedData : List DataRow) : List DataRow :=
  processedData ++ [DataRow.mk ("row-" ++ toString now) [] [] false]

/-- The store's `deleteRow(rowId)` action. -/
def deleteRow (processedData : List DataRow) (rowId : String) : List DataRow :=
  processedData.filter (fun r => r.id != rowId)

/-- The store's `deleteInvalidRows` action. -/
def deleteInvalidRows (processedData : List DataRow) : List DataRow :=
  processedData.filter (fun r => r.isValid)

/-- The flat validation-error list the store derives after processing
(`rows.flatMap(r => r.errors)`). -/
def flatErrors (rows : List DataRow) : List ValidationError :=
  (rows.map DataRow.errors).flatten

/-! ## Concrete host environments used to instantiate theorems -/

/-- A host environment whose date parser rejects every string. -/
def noParseEnv : JsEnv :=
  { parseStr := fun _ => none, iso := fun _ => "x", regexTest := fun _ _ => true }

/-- A host environment with a fixed injective ISO renderer and a parser that
accepts every string as the epoch. -/
def fixedParseEnv : JsEnv :=
  { parseStr := fun _ => some 0, iso := fun t => "ISO(" ++ toString t ++ ")",
    regexTest := fun _ _ => true }

/-! ## C9: applyNamedTransform is fail-open -/

/-- C9: for every value, transform name, and registry, `applyNamedTransform`
returns the original value unchanged when the name resolves to no registry
function or when the registered function throws; and every outcome is either
the original value or a successfully transformed one, so no exception ever
reaches the caller. -/
theorem applyNamedTransform_fail_open (value : Value) (transformName : Option String)
    (registry : Option TransformRegistry) :
    (transformName.bind (regLookup registry) = none →
      applyNamedTransform value transformName registry = value) ∧
    (∀ fn msg, transformName.bind (regLookup registry) = some fn →
      fn value = .error msg →
      applyNamedTransform value transformName registry = value) ∧
    (applyNamedTransform value transformName registry = value ∨
      ∃ fn w, transformName.bind (regLookup registry) = some fn ∧ fn value = .ok w ∧
        applyNamedTransform value transformName registry = w) := by
  refine ⟨fun hnone => ?_, fun fn msg hsome herr => ?_, ?_⟩
  · unfold applyNamedTransform
    by_cases ht : strTruthy transformName = true
    · simp [ht, hnone]
    · simp [ht]
  · unfold applyNamedTransform
    by_cases ht : strTruthy transformName = true
    · simp [ht, hsome, herr]
    · simp [ht]
  · unfold applyNamedTransform
    by_cases ht : strTruthy transformName = true
    · cases hb : transformName.bind (regLookup registry) with
      | none => simp [ht, hb]
      | some fn =>
          cases hv : fn value with
          | error e => simp [ht, hb, hv]
          | ok w => exact Or.inr ⟨fn, w, rfl, hv, by simp [ht, hb, hv]⟩
    · simp [ht]

/-- C9 witness: a registry function that throws is caught and the original
value is returned. -/
theorem applyNamedTransform_fail_open_witness :
    applyNamedTransform (.vstr "x") (some "boom")
      (some [("boom", fun _ => Except.error "kaboom")]) = .vstr "x" :=
  (applyNamedTransform_fail_open (.vstr "x") (some "boom")
    (some [("boom", fun _ => Except.error "kaboom")])).2.1
    (fun _ => Except.error "kaboom") "kaboom" rfl rfl

/-! ## C2: the candidate score is NOT the max of the two similarities -/

unseal Rat.add Rat.sub Rat.mul Rat.inv in
/-- C2 counterexample: for header "id" and a field with label "identifier" and
key "id", the auto-mapper's candidate score (JavaScript `||` of the two
similarities) differs from the spec's "greater of the two": the label
similarity is 1/5 (truthy), so the perfect key similarity 1 is never
consulted. -/
theorem candidateConfidence_ne_specScore :
    candidateConfidence "id" { key := "id", label := "identifier", type := "string" } ≠
      specCandidateScore "id" { key := "id", label := "identifier", type := "string" } := by
  decide

/-- C2 (amended): the candidate score is the label similarity when that is
nonzero and the key similarity otherwise; in particular it never exceeds the
spec's max-of-both score. -/
theorem candidateConfidence_amended (h : String) (f : FieldConfig) :
    candidateConfidence h f ≤ specCandidateScore h f ∧
    (calculateSimilarity (strLower h) (strLower f.label) ≠ 0 →
      candidateConfidence h f = calculateSimilarity (strLower h) (strLower f.label)) ∧
    (calculateSimilarity (strLower h) (strLower f.label) = 0 →
      candidateConfidence h f = calculateSimilarity (strLower h) (strLower f.key)) := by
  unfold candidateConfidence specCandidateScore
  by_cases hsl : calculateSimilarity (strLower h) (strLower f.label) = 0
  · rw [if_neg (not_not_intro hsl)]
    exact ⟨le_max_right _ _, fun hne => absurd hsl hne, fun _ => rfl⟩
  · rw [if_pos hsl]
    exact ⟨le_max_left _ _, fun _ => rfl, fun h0 => absurd h0 hsl⟩

unseal Rat.add Rat.sub Rat.mul Rat.inv in
/-- C2 witness: for an exact label match the score is the label similarity 1. -/
theorem candidateConfidence_amended_witness :
    calculateSimilarity (strLower "Email") (strLower "Email") ≠ 0 ∧
    candidateConfidence "Email" { key := "email", label := "Email", type := "email" } =
      calculateSimilarity (strLower "Email") (strLower "Email") :=
  ⟨by decide,
    (candidateConfidence_amended "Email"
      { key := "email", label := "Email", type := "email" }).2.1 (by decide)⟩

/-! ## C7: the date coercion branch -/

/-- C7 counterexample: for the non-empty string value `" "` the claim predicts
an ISO string or the original string, but `transformValue` trims first and
returns `null` for a whitespace-only string (with an environment whose parser
rejects everything and whose only ISO output is `"x"`). -/
theorem transformValue_date_counterexample :
    transformValue noParseEnv (.vstr " ") "date" = .vnull ∧
    Value.vnull ≠ .vstr " " ∧ Value.vnull ≠ .vstr "x" := by
  decide

/-- C7 (amended): the date branch of `transformValue`.  A valid `Date` becomes
its ISO string, an invalid one passes through; a number in the Excel range
(59, 600000) is converted via the Excel epoch `Date.UTC(1899,11,30)` with
`Math.round(serial * 86400000)` (always a valid date); any other number is a
Unix-ms timestamp, rendered as ISO when within the valid `Date` range and
passed through unchanged otherwise; a string is trimmed first — a
whitespace-only string yields `null`, a parseable one its ISO string, an
unparseable one the TRIMMED string (not the original). -/
theorem transformValue_date_amended (env : JsEnv) :
    (∀ t : Int, transformValue env (.vdate (some t)) "date" = .vstr (env.iso t)) ∧
    (transformValue env (.vdate none) "date" = .vdate none) ∧
    (∀ q : ℚ, 59 < q → q < 600000 →
      transformValue env (.vnum q) "date" =
        .vstr (env.iso (excelEpochMs + mathRound (q * 86400000)))) ∧
    (∀ q : ℚ, ¬(59 < q ∧ q < 600000) → |q| ≤ 8640000000000000 →
      transformValue env (.vnum q) "date" = .vstr (env.iso (ratTrunc q))) ∧
    (∀ q : ℚ, ¬(59 < q ∧ q < 600000) → 8640000000000000 < |q| →
      transformValue env (.vnum q) "date" = .vnum q) ∧
    (∀ s : String, s ≠ "" → strTrim s = "" →
      transformValue env (.vstr s) "date" = .vnull) ∧
    (∀ s : String, ∀ ms : Int, s ≠ "" → strTrim s ≠ "" → env.parseStr (strTrim s) = some ms →
      transformValue env (.vstr s) "date" = .vstr (env.iso ms)) ∧
    (∀ s : String, s ≠ "" → strTrim s ≠ "" → env.parseStr (strTrim s) = none →
      transformValue env (.vstr s) "date" = .vstr (strTrim s)) := by
  have hguard : ∀ v : Value, ¬ isEmptyValue v →
      transformValue env v "date" = transformValueCore env v "date" := by
    intro v hv
    unfold transformValue
    exact if_neg hv
  refine ⟨?_, ?_, ?_, ?_, ?_, ?_, ?_, ?_⟩
  · intro t
    rw [hguard _ (by simp [isEmptyValue])]
    rfl
  · rw [hguard _ (by simp [isEmptyValue])]
    rfl
  · intro q h1 h2
    rw [hguard _ (by simp [isEmptyValue])]
    have hm1 : (0 : Int) ≤ mathRound (q * 86400000) := by
      unfold mathRound
      exact Int.le_floor.mpr (by push_cast; nlinarith)
    have hm2 : mathRound (q * 86400000) ≤ 51840000000000 := by
      unfold mathRound
      have hfl : (⌊q * 86400000 + 1/2⌋ : ℚ) ≤ q * 86400000 + 1/2 := Int.floor_le _
      have hub : q * 86400000 + 1/2 < 51840000000001 := by nlinarith
      have hq : (⌊q * 86400000 + 1/2⌋ : ℚ) < 51840000000001 := lt_of_le_of_lt hfl hub
      have hz : ⌊q * 86400000 + 1/2⌋ < (51840000000001 : Int) := by exact_mod_cast hq
      omega
    have hclip : timeClip (excelEpochMs + mathRound (q * 86400000)) =
        some (excelEpochMs + mathRound (q * 86400000)) := by
      unfold timeClip excelEpochMs
      rw [if_pos (by omega)]
    show (let maybeExcel := decide (59 < q) && decide (q < 600000)
          let d := if maybeExcel then excelSerialToDate q else jsDateOfNumber q
          match d with
          | some ms => Value.vstr (env.iso ms)
          | none => Value.vnum q) = _
    simp only [decide_eq_true h1, decide_eq_true h2, Bool.and_self, if_true,
      excelSerialToDate, hclip]
  · intro q hrange habs
    rw [hguard _ (by simp [isEmptyValue])]
    have hcond : (decide (59 < q) && decide (q < 600000)) = false := by
      rcases not_and_or.mp hrange with h | h <;> simp [h]
    show (let maybeExcel := decide (59 < q) && decide (q < 600000)
          let d := if maybeExcel then excelSerialToDate q else jsDateOfNumber q
          match d with
          | some ms => Value.vstr (env.iso ms)
          | none => Value.vnum q) = _
    simp only [hcond, if_false, Bool.false_eq_true, jsDateOfNumber, if_pos habs]
  · intro q hrange habs
    rw [hguard _ (by simp [isEmptyValue])]
    have hcond : (decide (59 < q) && decide (q < 600000)) = false := by
      rcases not_and_or.mp hrange with h | h <;> simp [h]
    show (let maybeExcel := decide (59 < q) && decide (q < 600000)
          let d := if maybeExcel then excelSerialToDate q else jsDateOfNumber q
          match d with
          | some ms => Value.vstr (env.iso ms)
          | none => Value.vnum q) = _
    simp only [hcond, if_false, Bool.false_eq_true, jsDateOfNumber,
      if_neg (not_le.mpr habs)]
  · intro s hs htrim
    rw [hguard _ (by simp [isEmptyValue, hs])]
    show (let t := strTrim s
          if t = "" then Value.vnull
          else match env.parseStr t with
          | some ms => Value.vstr (env.iso ms)
          | none => Value.vstr t) = _
    simp only [htrim, if_pos]
  · intro s ms hs htrim hp
    rw [hguard _ (by simp [isEmptyValue, hs])]
    show (let t := strTrim s
          if t = "" then Value.vnull
          else match env.parseStr t with
          | some ms' => Value.vstr (env.iso ms')
          | none => Value.vstr t) = _
    simp [htrim, hp]
  · intro s hs htrim hp
    rw [hguard _ (by simp [isEmptyValue, hs])]
    show (let t := strTrim s
          if t = "" then Value.vnull
          else match env.parseStr t with
          | some ms' => Value.vstr (env.iso ms')
          | none => Value.vstr t) = _
    simp [htrim, hp]

/-- C7 witness: the spec's scenario, Excel serial 45000 converted via the
Excel epoch. -/
theorem transformValue_date_amended_witness :
    transformValue fixedParseEnv (.vnum 45000) "date" =
      .vstr (fixedParseEnv.iso (excelEpochMs + mathRound ((45000 : ℚ) * 86400000))) :=
  (transformValue_date_amended fixedParseEnv).2.2.1 45000 (by norm_num) (by norm_num)

/-! ## C10: boolean coercion shields the boolean type check -/

/-- C10 counterexample: the empty string reaches the boolean coercion as a raw
value but passes through unchanged instead of becoming `false` as the claim's
"every other value" predicts. -/
theorem transformValue_boolean_counterexample :
    transformValue noParseEnv (.vstr "") "boolean" = .vstr "" ∧
    Value.vstr "" ≠ .vbool false := by
  decide

/-- C10 (amended): boolean coercion maps every non-empty value to the literal
`true` iff its lowercased string form is "true"/"1"/"yes" and to `false`
otherwise, while null/undefined/empty-string pass through; in both cases the
boolean type-validation branch emits no error on the coerced value, so a
boolean field never gets a boolean type error from the pipeline (unrecognized
non-empty values silently become `false`). -/
theorem transformValue_boolean_amended (env : JsEnv) (v : Value) (field : FieldConfig)
    (i : Int) (hf : field.type = "boolean") :
    (¬ isEmptyValue v →
      transformValue env v "boolean" =
        .vbool (strLower (jsToString v) == "true" || strLower (jsToString v) == "1" ||
          strLower (jsToString v) == "yes")) ∧
    (isEmptyValue v → transformValue env v "boolean" = v) ∧
    typeCheckErrors env (transformValue env v "boolean") field i = [] := by
  have hcoerce : ¬ isEmptyValue v →
      transformValue env v "boolean" =
        .vbool (strLower (jsToString v) == "true" || strLower (jsToString v) == "1" ||
          strLower (jsToString v) == "yes") := by
    intro hv
    unfold transformValue
    rw [if_neg hv]
    rfl
  have hpass : isEmptyValue v → transformValue env v "boolean" = v := by
    intro hv
    unfold transformValue
    exact if_pos hv
  have hbool : ∀ b : Bool, typeCheckErrors env (.vbool b) field i = [] := by
    intro b
    unfold typeCheckErrors
    rw [if_neg (show ¬ isEmptyValue (Value.vbool b) by simp [isEmptyValue])]
    rw [hf]
    cases b
    · exact if_neg (by decide)
    · exact if_neg (by decide)
  refine ⟨hcoerce, hpass, ?_⟩
  by_cases hv : isEmptyValue v
  · rw [hpass hv]
    unfold typeCheckErrors
    exact if_pos hv
  · rw [hcoerce hv]
    exact hbool _

/-- C10 witness: an unrecognized non-empty raw value coerces to `false` and the
boolean type check stays silent. -/
theorem transformValue_boolean_amended_witness :
    ({ key := "b", label := "B", type := "boolean" } : FieldConfig).type = "boolean" ∧
    ¬ isEmptyValue (.vstr "maybe") ∧
    transformValue noParseEnv (.vstr "maybe") "boolean" = .vbool false ∧
    typeCheckErrors noParseEnv (transformValue noParseEnv (.vstr "maybe") "boolean")
      { key := "b", label := "B", type := "boolean" } 0 = [] := by
  refine ⟨rfl, by decide, ?_, ?_⟩
  · have := (transformValue_boolean_amended noParseEnv (.vstr "maybe")
      { key := "b", label := "B", type := "boolean" } 0 rfl).1 (by decide)
    rw [this]
    decide
  · exact (transformValue_boolean_amended noParseEnv (.vstr "maybe")
      { key := "b", label := "B", type := "boolean" } 0 rfl).2.2

/-! ## C3: mapping uniqueness invariants -/

/-- No two mappings share a target. -/
def targetsNodup (l : List FieldMapping) : Prop :=
  l.Pairwise (fun a b => a.target ≠ b.target)

/-- No two mappings share a source. -/
def sourcesNodup (l : List FieldMapping) : Prop :=
  l.Pairwise (fun a b => a.source ≠ b.source)

theorem mapSetAssoc_cons {α : Type} (k : String) (v : α) (k' : String) (v' : α)
    (tl : List (String × α)) :
    mapSetAssoc k v ((k', v') :: tl) =
      if k' == k then (k', v) :: tl else (k', v') :: mapSetAssoc k v tl := rfl

theorem mapSetAssoc_keys_nodup {α : Type} (k : String) (v : α) :
    ∀ l : List (String × α), (l.map Prod.fst).Nodup →
      ((mapSetAssoc k v l).map Prod.fst).Nodup ∧
      (∀ a, a ∈ (mapSetAssoc k v l).map Prod.fst → a ∈ l.map Prod.fst ∨ a = k) := by
  intro l
  induction l with
  | nil =>
      intro _
      refine ⟨by simp [mapSetAssoc], ?_⟩
      intro a ha
      simp [mapSetAssoc] at ha
      exact Or.inr ha
  | cons hd tl ih =>
      obtain ⟨k', v'⟩ := hd
      intro hnd
      rw [List.map_cons, List.nodup_cons] at hnd
      obtain ⟨hhd, htl⟩ := hnd
      rw [mapSetAssoc_cons]
      by_cases hk : (k' == k) = true
      · rw [if_pos hk]
        constructor
        · rw [List.map_cons, List.nodup_cons]
          exact ⟨hhd, htl⟩
        · intro a ha
          rw [List.map_cons, List.mem_cons] at ha
          rw [List.map_cons, List.mem_cons]
          tauto
      · rw [if_neg hk]
        obtain ⟨ihnd, ihmem⟩ := ih htl
        constructor
        · rw [List.map_cons, List.nodup_cons]
          refine ⟨?_, ihnd⟩
          intro hmem
          rcases ihmem _ hmem with h | h
          · exact hhd h
          · exact hk (beq_iff_eq.mpr h)
        · intro a ha
          rw [List.map_cons, List.mem_cons] at ha
          rw [List.map_cons, List.mem_cons]
          rcases ha with h | h
          · exact Or.inl (Or.inl h)
          · rcases ihmem _ h with h' | h'
            · exact Or.inl (Or.inr h')
            · exact Or.inr h'

theorem mapSetAssoc_mem {α : Type} (k : String) (v : α) :
    ∀ l : List (String × α), ∀ p ∈ mapSetAssoc k v l, p ∈ l ∨ p = (k, v) := by
  intro l
  induction l with
  | nil =>
      intro p hp
      simp [mapSetAssoc] at hp
      exact Or.inr hp
  | cons hd tl ih =>
      obtain ⟨k', v'⟩ := hd
      intro p hp
      rw [mapSetAssoc_cons] at hp
      by_cases hk : (k' == k) = true
      · rw [if_pos hk] at hp
        have hk' : k' = k := by simpa using hk
        rcases List.mem_cons.mp hp with h | h
        · exact Or.inr (by rw [h, hk'])
        · exact Or.inl (List.mem_cons_of_mem _ h)
      · rw [if_neg hk] at hp
        rcases List.mem_cons.mp hp with h | h
        · exact Or.inl (by rw [h]; exact List.mem_cons_self _ _)
        · rcases ih p h with h' | h'
          · exact Or.inl (List.mem_cons_of_mem _ h')
          · exact Or.inr h'

theorem setFieldMappingsCompacted_fold_invariant (l : List FieldMapping) :
    ∀ acc : List (String × FieldMapping), (acc.map Prod.fst).Nodup →
      (∀ p ∈ acc, p.2.target = p.1) →
      ((l.foldl (fun acc m => if m.target == "" then acc else mapSetAssoc m.target m acc)
          acc).map Prod.fst).Nodup ∧
      (∀ p ∈ l.foldl (fun acc m => if m.target == "" then acc else mapSetAssoc m.target m acc)
          acc, p.2.target = p.1) := by
  induction l with
  | nil => intro acc h1 h2; exact ⟨h1, h2⟩
  | cons m rest ih =>
      intro acc h1 h2
      rw [List.foldl_cons]
      by_cases hm : m.target == ""
      · rw [if_pos hm]
        exact ih acc h1 h2
      · rw [if_neg hm]
        refine ih _ (mapSetAssoc_keys_nodup m.target m acc h1).1 ?_
        intro p hp
        rcases mapSetAssoc_mem m.target m acc p hp with h | h
        · exact h2 p h
        · rw [h]

/-- C3 counterexample: `setFieldMappings` only dedupes by target, so the input
`[{a → x}, {a → y}]` yields a stored list with two entries sharing source
`"a"`, violating the claimed at-most-one-entry-per-source-header invariant. -/
theorem setFieldMappings_source_duplicate :
    ¬ sourcesNodup (setFieldMappingsCompacted
      [{ source := "a", target := "x" }, { source := "a", target := "y" }]) := by
  unfold sourcesNodup
  decide

/-- C3 (amended): after `setFieldMappings` the stored list has at most one
entry per target (for any input); `updateMapping` preserves per-target
uniqueness and preserves per-source uniqueness.  Per-source uniqueness is NOT
enforced by `setFieldMappings`. -/
theorem mapping_uniqueness_amended :
    (∀ l : List FieldMapping, targetsNodup (setFieldMappingsCompacted l)) ∧
    (∀ (fields : List FieldConfig) (ex : List FieldMapping) (src : String)
      (tgt : Option String), targetsNodup ex →
        targetsNodup (updateMappingFieldMappings fields ex src tgt)) ∧
    (∀ (fields : List FieldConfig) (ex : List FieldMapping) (src : String)
      (tgt : Option String), sourcesNodup ex →
        sourcesNodup (updateMappingFieldMappings fields ex src tgt)) := by
  refine ⟨?_, ?_, ?_⟩
  · intro l
    unfold setFieldMappingsCompacted targetsNodup
    obtain ⟨hnd, htg⟩ := setFieldMappingsCompacted_fold_invariant l [] (by simp) (by simp)
    rw [List.pairwise_map]
    have hfst : (l.foldl
        (fun acc m => if m.target == "" then acc else mapSetAssoc m.target m acc)
        []).Pairwise (fun p q => p.1 ≠ q.1) := List.pairwise_map.mp hnd
    refine hfst.imp_of_mem ?_
    intro p q hp hq hne
    rw [htg p hp, htg q hq]
    exact hne
  · intro fields ex src tgt hex
    have hnext : targetsNodup (ex.filter (fun m => m.source != src)) :=
      List.Pairwise.sublist (List.filter_sublist _) hex
    cases tgt with
    | none => exact hnext
    | some t =>
        unfold updateMappingFieldMappings targetsNodup
        dsimp only
        by_cases ht : (t != "") = true
        · rw [if_pos ht]
          rw [List.pairwise_append]
          refine ⟨List.Pairwise.sublist (List.filter_sublist _) hnext,
            List.pairwise_singleton _ _, ?_⟩
          intro a ha b hb
          rw [List.mem_singleton] at hb
          rw [List.mem_filter] at ha
          have hat : a.target ≠ t := by simpa using ha.2
          rw [hb]
          exact hat
        · rw [if_neg ht]
          exact hnext
  · intro fields ex src tgt hex
    have hnext : sourcesNodup (ex.filter (fun m => m.source != src)) :=
      List.Pairwise.sublist (List.filter_sublist _) hex
    cases tgt with
    | none => exact hnext
    | some t =>
        unfold updateMappingFieldMappings sourcesNodup
        dsimp only
        by_cases ht : (t != "") = true
        · rw [if_pos ht]
          rw [List.pairwise_append]
          refine ⟨List.Pairwise.sublist (List.filter_sublist _) hnext,
            List.pairwise_singleton _ _, ?_⟩
          intro a ha b hb
          rw [List.mem_singleton] at hb
          have hanext : a ∈ ex.filter (fun m => m.source != src) :=
            List.mem_of_mem_filter ha
          have has : a.source ≠ src := by
            have := (List.mem_filter.mp hanext).2
            simpa using this
          rw [hb]
          exact has
        · rw [if_neg ht]
          exact hnext

/-- C3 witness: `updateMapping` on a target-unique, source-unique list keeps
targets unique. -/
theorem mapping_uniqueness_amended_witness :
    targetsNodup (updateMappingFieldMappings []
      [{ source := "b", target := "y" }] "a" (some "x")) :=
  mapping_uniqueness_amended.2.1 [] [{ source := "b", target := "y" }] "a" (some "x")
    (by unfold targetsNodup; decide)

/-! ## C8: isValid iff no error-severity entries -/

/-- The claimed invariant: a row is valid iff its error list has no
`severity = "error"` entry. -/
def validityInvariant (rows : List DataRow) : Prop :=
  ∀ r ∈ rows, (r.isValid = true ↔ noErrorSeverity r.errors = true)

theorem foldl_invariant {α β : Type} (P : β → Prop) (f : β → α → β) :
    ∀ (l : List α) (init : β), P init → (∀ b a, P b → P (f b a)) →
      P (l.foldl f init) := by
  intro l
  induction l with
  | nil => intro init h _; exact h
  | cons hd tl ih =>
      intro init h hstep
      rw [List.foldl_cons]
      exact ih (f init hd) (hstep init hd h) hstep

theorem listModify_mem {α : Type} (f : α → α) :
    ∀ (l : List α) (i : Nat), ∀ x ∈ listModify l i f, x ∈ l ∨ ∃ y ∈ l, x = f y := by
  intro l
  induction l with
  | nil => intro i x hx; simp [listModify] at hx
  | cons hd tl ih =>
      intro i x hx
      cases i with
      | zero =>
          rcases List.mem_cons.mp hx with h | h
          · exact Or.inr ⟨hd, List.mem_cons_self _ _, h⟩
          · exact Or.inl (List.mem_cons_of_mem _ h)
      | succ n =>
          rcases List.mem_cons.mp hx with h | h
          · exact Or.inl (h ▸ List.mem_cons_self _ _)
          · rcases ih n x h with h' | ⟨y, hy, hxy⟩
            · exact Or.inl (List.mem_cons_of_mem _ h')
            · exact Or.inr ⟨y, List.mem_cons_of_mem _ hy, hxy⟩

theorem noErrorSeverity_append_error (l : List ValidationError) (e : ValidationError)
    (he : e.severity = "error") : noErrorSeverity (l ++ [e]) = false := by
  unfold noErrorSeverity
  rw [List.filter_append]
  simp [he]

theorem addDupError_validity (f : FieldConfig) (k : String) (i : Nat)
    (rows : List DataRow) (h : validityInvariant rows) :
    validityInvariant (addDupError f k i rows) := by
  intro r hr
  rcases listModify_mem _ rows i r hr with h' | ⟨y, _, hxy⟩
  · exact h r h'
  · rw [hxy]
    constructor
    · intro hv
      exact absurd hv (by simp)
    · intro hv
      rw [noErrorSeverity_append_error _ _ rfl] at hv
      exact absurd hv (by simp)

theorem uniqStep_validity (f : FieldConfig) (acc : List DataRow × List (String × Nat))
    (idx : Nat) (h : validityInvariant acc.1) :
    validityInvariant (uniqStep f acc idx).1 := by
  unfold uniqStep
  cases hg : acc.1.get? idx with
  | none => exact h
  | some r =>
      dsimp only
      by_cases hemp : objGet r.data f.key = .vundef ∨ objGet r.data f.key = .vnull ∨
          objGet r.data f.key = .vstr ""
      · rw [if_pos hemp]; exact h
      · rw [if_neg hemp]
        cases hf : acc.2.find? (fun p => p.1 == jsToString (objGet r.data f.key)) with
        | none => exact h
        | some p => exact addDupError_validity _ _ _ _ (addDupError_validity _ _ _ _ h)

theorem uniquePassField_validity (rows : List DataRow) (f : FieldConfig)
    (h : validityInvariant rows) : validityInvariant (uniquePassField rows f) := by
  unfold uniquePassField
  exact foldl_invariant (fun st => validityInvariant st.1) (uniqStep f)
    (List.range rows.length) (rows, []) h (fun b a hb => uniqStep_validity f b a hb)

theorem uniquenessPass_validity (fields : List FieldConfig) (rows : List DataRow)
    (h : validityInvariant rows) : validityInvariant (uniquenessPass fields rows) := by
  unfold uniquenessPass
  exact foldl_invariant validityInvariant uniquePassField _ rows h
    (fun b a hb => uniquePassField_validity b a hb)

theorem validityInvariant_append (l1 l2 : List DataRow)
    (h1 : validityInvariant l1) (h2 : validityInvariant l2) :
    validityInvariant (l1 ++ l2) := by
  intro r hr
  rcases List.mem_append.mp hr with h | h
  · exact h1 r h
  · exact h2 r h

theorem processChunkedFrom_validity (env : JsEnv) (rows : List Obj)
    (fields : List FieldConfig) (mappings : List FieldMapping)
    (registry : Option TransformRegistry) (vRegistry : Option ValidationRegistry)
    (B : Nat) : ∀ (fuel start : Nat) (acc : List DataRow), validityInvariant acc →
      validityInvariant (processChunkedFrom env rows fields mappings registry
        vRegistry B fuel start acc) := by
  intro fuel
  induction fuel with
  | zero => intro start acc h; exact h
  | succ n ih =>
      intro start acc h
      unfold processChunkedFrom
      by_cases hs : start < rows.length
      · rw [if_pos hs]
        refine ih _ _ (validityInvariant_append _ _ h ?_)
        intro r hr
        rcases List.mem_map.mp hr with ⟨i, _, hri⟩
        rw [← hri]
        exact Iff.rfl
      · rw [if_neg hs]
        exact h

/-- C8 counterexample: `addRow` appends a row with an empty error list but
`isValid = false`, so `isValid` is not equivalent to "no error-severity
entries" after adding a row. -/
theorem addRow_validity_counterexample : ¬ validityInvariant (addRow 123 []) := by
  unfold validityInvariant
  decide

/-- C8 (amended): every row produced by a full or chunked processing pass
(including the uniqueness pass) satisfies `isValid ⟺ no severity-error
entries`; `updateRowData` and the delete operations preserve the invariant;
but `addRow` appends a row with `isValid = false` and an empty error list, so
the equivalence does not hold for freshly added rows. -/
theorem validity_invariant_amended :
    (∀ (env : JsEnv) (imp : ImportedData) (fields : List FieldConfig)
      (pl : PipelineMappings) (reg : Option TransformRegistry)
      (vreg : Option ValidationRegistry),
      validityInvariant (processImportedDataWithMappings env imp fields pl reg vreg)) ∧
    (∀ (env : JsEnv) (imp : ImportedData) (fields : List FieldConfig)
      (pl : PipelineMappings) (reg : Option TransformRegistry)
      (vreg : Option ValidationRegistry) (cs : Option Int),
      validityInvariant (processDataChunked env imp fields pl reg vreg cs)) ∧
    (∀ (env : JsEnv) (fields : List FieldConfig) (vreg : Option ValidationRegistry)
      (pd : List DataRow) (rid k : String) (v : Value), validityInvariant pd →
      validityInvariant (updateRowData env fields vreg pd rid k v)) ∧
    (∀ (pd : List DataRow) (rid : String), validityInvariant pd →
      validityInvariant (deleteRow pd rid)) ∧
    (∀ pd : List DataRow, validityInvariant pd →
      validityInvariant (deleteInvalidRows pd)) ∧
    (∀ (now : Int) (pd : List DataRow), ∀ r ∈ addRow now pd,
      r ∈ pd ∨ (r.errors = [] ∧ r.isValid = false)) := by
  refine ⟨?_, ?_, ?_, ?_, ?_, ?_⟩
  · intro env imp fields pl reg vreg
    unfold processImportedDataWithMappings
    refine uniquenessPass_validity _ _ ?_
    intro r hr
    rcases List.mem_map.mp hr with ⟨p, _, hrp⟩
    rw [← hrp]
    exact Iff.rfl
  · intro env imp fields pl reg vreg cs
    unfold processDataChunked
    refine uniquenessPass_validity _ _ ?_
    exact processChunkedFrom_validity _ _ _ _ _ _ _ _ _ _ (by intro r hr; simp at hr)
  · intro env fields vreg pd rid k v h
    intro r hr
    rcases List.mem_map.mp hr with ⟨y, hy, hry⟩
    rw [← hry]
    by_cases hid : (y.id == rid) = true
    · rw [if_pos hid]
    · rw [if_neg hid]
      exact h y hy
  · intro pd rid h r hr
    exact h r (List.mem_of_mem_filter hr)
  · intro pd h r hr
    exact h r (List.mem_of_mem_filter hr)
  · intro now pd r hr
    rcases List.mem_append.mp hr with h | h
    · exact Or.inl h
    · rw [List.mem_singleton.mp h]
      exact Or.inr ⟨rfl, rfl⟩

/-- C8 witness: the invariant-preservation clauses applied at a concrete
state. -/
theorem validity_invariant_amended_witness :
    validityInvariant (deleteRow [DataRow.mk "row-0" [] [] true] "row-0") :=
  validity_invariant_amended.2.2.2.1 [DataRow.mk "row-0" [] [] true] "row-0"
    (by unfold validityInvariant; decide)

/-! ## C6: the single-cell edit contract -/

theorem objHas_cons (p : String × Value) (rest : Obj) (k : String) :
    objHas (p :: rest) k = ((p.1 == k) || objHas rest k) := by
  simp [objHas]

theorem objGet_cons (p : String × Value) (rest : Obj) (k : String) :
    objGet (p :: rest) k = if (p.1 == k) = true then p.2 else objGet rest k := by
  unfold objGet
  rw [List.find?_cons]
  by_cases hp : (p.1 == k) = true
  · rw [if_pos hp, hp]
    rfl
  · have hb : (p.1 == k) = false := by simpa using hp
    rw [if_neg hp, hb]

theorem objGet_map_replace (k : String) (v : Value) :
    ∀ o : Obj, objHas o k = true →
      objGet (o.map (fun p => if p.1 == k then (p.1, v) else p)) k = v := by
  intro o
  induction o with
  | nil => intro h; simp [objHas] at h
  | cons p rest ih =>
      intro h
      rw [List.map_cons]
      by_cases hp : (p.1 == k) = true
      · rw [if_pos hp, objGet_cons]
        dsimp only
        rw [if_pos hp]
      · rw [if_neg hp, objGet_cons, if_neg hp]
        exact ih (by simpa [objHas_cons, hp] using h)

theorem objGet_objSet_self (o : Obj) (k : String) (v : Value) :
    objGet (objSet o k v) k = v := by
  unfold objSet
  by_cases h : objHas o k = true
  · rw [if_pos h]
    exact objGet_map_replace k v o h
  · rw [if_neg h]
    unfold objGet
    rw [List.find?_append]
    have hnone : o.find? (fun p => p.1 == k) = none := by
      rw [List.find?_eq_none]
      intro x hx hxk
      exact h (List.any_eq_true.mpr ⟨x, hx, hxk⟩)
    rw [hnone]
    simp [List.find?_cons]

theorem objGet_map_replace_ne (k : String) (v : Value) (k' : String) (hne : k' ≠ k) :
    ∀ o : Obj, objGet (o.map (fun p => if p.1 == k then (p.1, v) else p)) k' =
      objGet o k' := by
  intro o
  induction o with
  | nil => rfl
  | cons p rest ih =>
      rw [List.map_cons]
      by_cases hp : (p.1 == k) = true
      · have hq : ¬ ((p.1 == k') = true) := by
          have hpk : p.1 = k := by simpa using hp
          rw [hpk]
          intro hc
          have hc2 : k = k' := by simpa using hc
          exact hne hc2.symm
        rw [if_pos hp, objGet_cons, objGet_cons]
        dsimp only
        rw [if_neg hq, if_neg hq]
        exact ih
      · rw [if_neg hp, objGet_cons, objGet_cons]
        by_cases hq : (p.1 == k') = true
        · rw [if_pos hq, if_pos hq]
        · rw [if_neg hq, if_neg hq]
          exact ih

theorem objGet_objSet_ne (o : Obj) (k : String) (v : Value) (k' : String)
    (hne : k' ≠ k) : objGet (objSet o k v) k' = objGet o k' := by
  unfold objSet
  by_cases h : objHas o k = true
  · rw [if_pos h]
    exact objGet_map_replace_ne k v k' hne o
  · rw [if_neg h]
    unfold objGet
    rw [List.find?_append]
    have hsingle : ([(k, v)] : Obj).find? (fun p => p.1 == k') = none := by
      rw [List.find?_eq_none]
      intro x hx hxk
      rw [List.mem_singleton.mp hx] at hxk
      have hc2 : k = k' := by simpa using hxk
      exact hne hc2.symm
    rw [hsingle]
    simp

/-- C6 counterexample: the single-cell edit stores the RAW value (here the
string "yes" on a boolean field), not the coerced value `true` that
`transformValue` would produce, so the claimed "coerces and validates only
that field" is false. -/
theorem updateRowData_no_coercion :
    ((updateRowData noParseEnv [{ key := "b", label := "B", type := "boolean" }] none
        [DataRow.mk "row-0" [("b", .vbool true)] [] true] "row-0" "b"
        (.vstr "yes")).head?.map (fun r => objGet r.data "b")) = some (.vstr "yes") ∧
    Value.vstr "yes" ≠ transformValue noParseEnv (.vstr "yes") "boolean" := by
  decide

/-- C6 (amended): `updateRowData` stores and validates the RAW value without
coercion or transform; only the edited row changes; within it, only the edited
key's data entry changes; that field's prior errors are replaced by the fresh
single-field validation output (computed against the updated row data, with no
uniqueness re-run — rows other than the edited one are untouched); `isValid`
is recomputed from the full updated error list. -/
theorem updateRowData_amended (env : JsEnv) (fields : List FieldConfig)
    (vreg : Option ValidationRegistry) (pd : List DataRow)
    (rowId fieldKey : String) (value : Value) :
    (updateRowData env fields vreg pd rowId fieldKey value).length = pd.length ∧
    (∀ (t : Nat) (r : DataRow), pd.get? t = some r → r.id ≠ rowId →
      (updateRowData env fields vreg pd rowId fieldKey value).get? t = some r) ∧
    (∀ (t : Nat) (r : DataRow), pd.get? t = some r → r.id = rowId →
      ∃ r', (updateRowData env fields vreg pd rowId fieldKey value).get? t = some r' ∧
        r'.id = r.id ∧
        r'.data = objSet r.data fieldKey value ∧
        objGet r'.data fieldKey = value ∧
        (∀ k', k' ≠ fieldKey → objGet r'.data k' = objGet r.data k') ∧
        r'.errors = r.errors.filter (fun e => e.field != fieldKey) ++
          (match fields.find? (fun f => f.key == fieldKey) with
           | some field => validateFieldWithRegistry env value field
               (match pd.findIdx? (fun q => q.id == rowId) with
                | some i => (i : Int)
                | none => -1) (objSet r.data fieldKey value) vreg
           | none => []) ∧
        (r'.isValid = true ↔ noErrorSeverity r'.errors = true)) := by
  refine ⟨by unfold updateRowData; exact List.length_map _ _, ?_, ?_⟩
  · intro t r hget hne
    unfold updateRowData
    rw [List.get?_map, hget, Option.map_some']
    have hid : (r.id == rowId) = false := by simpa using hne
    dsimp only
    rw [if_neg (by simp [hid])]
  · intro t r hget hid
    unfold updateRowData
    rw [List.get?_map, hget, Option.map_some']
    dsimp only
    rw [if_pos (by simpa using hid)]
    refine ⟨_, rfl, rfl, rfl, objGet_objSet_self _ _ _,
      fun k' hk' => objGet_objSet_ne _ _ _ _ hk', ?_, Iff.rfl⟩
    cases hf : fields.find? (fun f => f.key == fieldKey) with
    | none => exact (List.append_nil _).symm
    | some field => rfl

/-- C6 witness: a row whose id does not match is returned unchanged. -/
theorem updateRowData_amended_witness :
    (updateRowData noParseEnv [] none [DataRow.mk "row-1" [] [] true] "row-0" "k"
      .vnull).get? 0 = some (DataRow.mk "row-1" [] [] true) :=
  (updateRowData_amended noParseEnv [] none [DataRow.mk "row-1" [] [] true] "row-0" "k"
    .vnull).2.1 0 (DataRow.mk "row-1" [] [] true) rfl (by decide)

/-! ## C4: chunk-boundary equivalence -/

theorem processRowChunked_eq_single (env : JsEnv) (fields : List FieldConfig)
    (mappings : List FieldMapping) (registry : Option TransformRegistry)
    (vRegistry : Option ValidationRegistry) (row : Obj) (index : Nat)
    (h : ∀ m ∈ mappings, m.target ≠ "") :
    processRowChunked env fields mappings registry vRegistry row index =
      processRowSingle env fields mappings registry vRegistry row index := by
  have hfold : mappings.foldl
      (fun acc m =>
        if !objHas row m.source || m.target == "" then acc
        else processMappingStep env fields registry vRegistry row (index : Int) acc m)
      ([], []) =
    mappings.foldl
      (fun acc m =>
        if !objHas row m.source then acc
        else processMappingStep env fields registry vRegistry row (index : Int) acc m)
      ([], []) := by
    refine List.foldl_ext _ _ _ ?_
    intro acc m hm
    have ht : (m.target == "") = false := by simpa using h m hm
    rw [ht, Bool.or_false]
  unfold processRowChunked processRowSingle processRowPipeline
  rw [hfold]

theorem processChunkedFrom_spec (env : JsEnv) (rows : List Obj)
    (fields : List FieldConfig) (mappings : List FieldMapping)
    (registry : Option TransformRegistry) (vRegistry : Option ValidationRegistry)
    (B : Nat) (hB : 0 < B) :
    ∀ (fuel start : Nat) (acc : List DataRow), rows.length - start ≤ fuel →
      processChunkedFrom env rows fields mappings registry vRegistry B fuel start acc =
        acc ++ (List.range' start (rows.length - start)).map
          (fun i => processRowChunked env fields mappings registry vRegistry
            ((rows.get? i).getD []) i) := by
  intro fuel
  induction fuel with
  | zero =>
      intro start acc h
      have h0 : rows.length - start = 0 := Nat.le_zero.mp h
      unfold processChunkedFrom
      rw [h0]
      simp
  | succ f ih =>
      intro start acc h
      unfold processChunkedFrom
      by_cases hs : start < rows.length
      · rw [if_pos hs]
        rw [ih (min rows.length (start + B)) _ (by omega)]
        rw [List.append_assoc]
        congr 1
        rw [← List.map_append]
        congr 1
        have hba := List.range'_append_1 start (min rows.length (start + B) - start)
          (rows.length - min rows.length (start + B))
        rw [show start + (min rows.length (start + B) - start) =
            min rows.length (start + B) from by omega,
          show rows.length - min rows.length (start + B) +
            (min rows.length (start + B) - start) = rows.length - start from by omega]
          at hba
        exact hba
      · rw [if_neg hs]
        have h0 : rows.length - start = 0 := by omega
        rw [h0]
        simp

theorem enumMap_eq_rangeMap {γ : Type} (rows : List Obj) (g : Obj → Nat → γ) :
    rows.enum.map (fun p => g p.2 p.1) =
      (List.range' 0 rows.length).map (fun i => g ((rows.get? i).getD []) i) := by
  refine List.ext_get?_iff.mpr ?_
  intro n
  rw [List.get?_map, List.get?_map, List.get?_enum]
  by_cases hn : n < rows.length
  · have hr : (List.range' 0 rows.length).get? n = some (0 + 1 * n) := by
      rw [List.get?_eq_getElem?]
      exact List.getElem?_range' 0 1 hn
    rw [hr]
    cases hg : rows.get? n with
    | none => exact absurd (List.get?_eq_none.mp hg) (by omega)
    | some row =>
        rw [List.get?_eq_getElem?] at hg
        simp [hg]
  · have hr : (List.range' 0 rows.length).get? n = none := by
      rw [List.get?_eq_getElem?]
      refine List.getElem?_eq_none ?_
      simpa using Nat.le_of_not_lt hn
    have hg : rows.get? n = none := List.get?_eq_none.mpr (Nat.le_of_not_lt hn)
    rw [hr, hg]
    rfl

/-- C4 counterexample: with a field whose key is the empty string and a
mapping whose target is the empty string, the chunked loop skips the mapping
(`!target` check) but the single pass processes it, so the outputs differ. -/
theorem processDataChunked_ne_counterexample :
    processDataChunked noParseEnv ⟨["a"], [[("a", .vstr "v")]]⟩
        [{ key := "", label := "L", type := "string" }] ⟨[{ source := "a", target := "" }]⟩
        (some []) none (some 1) ≠
      processImportedDataWithMappings noParseEnv ⟨["a"], [[("a", .vstr "v")]]⟩
        [{ key := "", label := "L", type := "string" }] ⟨[{ source := "a", target := "" }]⟩
        (some []) none := by
  decide

/-- C4 (amended): provided every field mapping's target is non-empty, an
uncancelled chunked run produces exactly the same final DataRow list and the
same flat validation-error list as the single-pass
`processImportedDataWithMappings`, for every configured chunk size (the
effective batch size is always ≥ 1).  Without that proviso the chunked loop
additionally skips empty-target mappings, which the single pass processes
when some field has an empty key. -/
theorem processDataChunked_eq_single (env : JsEnv) (imp : ImportedData)
    (fields : List FieldConfig) (pl : PipelineMappings)
    (reg : Option TransformRegistry) (vreg : Option ValidationRegistry)
    (cs : Option Int) (h : ∀ m ∈ pl.fieldMappings, m.target ≠ "") :
    processDataChunked env imp fields pl reg vreg cs =
      processImportedDataWithMappings env imp fields pl reg vreg ∧
    flatErrors (processDataChunked env imp fields pl reg vreg cs) =
      flatErrors (processImportedDataWithMappings env imp fields pl reg vreg) := by
  have hmain : processDataChunked env imp fields pl reg vreg cs =
      processImportedDataWithMappings env imp fields pl reg vreg := by
    unfold processDataChunked processImportedDataWithMappings
    refine congrArg (uniquenessPass fields) ?_
    rw [processChunkedFrom_spec env imp.rows fields pl.fieldMappings reg vreg
      (effectiveBatchSize cs) (effectiveBatchSize_pos cs) imp.rows.length 0 []
      (by omega)]
    rw [List.nil_append, Nat.sub_zero]
    have hfun : (fun i => processRowChunked env fields pl.fieldMappings reg vreg
        ((imp.rows.get? i).getD []) i) =
        (fun i => processRowSingle env fields pl.fieldMappings reg vreg
          ((imp.rows.get? i).getD []) i) :=
      funext fun i => processRowChunked_eq_single env fields pl.fieldMappings reg vreg
        ((imp.rows.get? i).getD []) i h
    rw [hfun, ← enumMap_eq_rangeMap]
  exact ⟨hmain, by rw [hmain]⟩

/-- C4 witness: chunked and single-pass processing agree on a concrete
two-row dataset with batch size 1. -/
theorem processDataChunked_eq_single_witness :
    processDataChunked noParseEnv ⟨["E"], [[("E", .vstr "a")], [("E", .vstr "a")]]⟩
        [{ key := "email", label := "Email", type := "string", unique := true }]
        ⟨[{ source := "E", target := "email" }]⟩ (some []) none (some 1) =
      processImportedDataWithMappings noParseEnv
        ⟨["E"], [[("E", .vstr "a")], [("E", .vstr "a")]]⟩
        [{ key := "email", label := "Email", type := "string", unique := true }]
        ⟨[{ source := "E", target := "email" }]⟩ (some []) none :=
  (processDataChunked_eq_single noParseEnv ⟨["E"], [[("E", .vstr "a")], [("E", .vstr "a")]]⟩
    [{ key := "email", label := "Email", type := "string", unique := true }]
    ⟨[{ source := "E", target := "email" }]⟩ (some []) none (some 1) (by decide)).1

/-! ## C5: the uniqueness pass -/

/-- A row carries the duplicate-value error for field `f` and stringified
value `keyStr`, and is marked invalid. -/
def dupFlagged (f : FieldConfig) (keyStr : String) (r : DataRow) : Prop :=
  (∃ e ∈ r.errors, e.field = f.key ∧ e.severity = "error" ∧
    e.message = f.label ++ " must be unique. Duplicate value '" ++ keyStr ++ "' found") ∧
  r.isValid = false

/-- The row at index `t` is `dupFlagged`. -/
def flaggedAt (f : FieldConfig) (keyStr : String) (l : List DataRow) (t : Nat) : Prop :=
  ∃ r, l.get? t = some r ∧ dupFlagged f keyStr r

/-- `l'` refines `l` row-wise: same length, same data, errors only grow, and
invalidity is preserved (what the uniqueness pass does to a row list). -/
def rowsMono (l l' : List DataRow) : Prop :=
  l'.length = l.length ∧
  ∀ (t : Nat) (r : DataRow), l.get? t = some r → ∃ r', l'.get? t = some r' ∧
    r'.data = r.data ∧ (∀ e ∈ r.errors, e ∈ r'.errors) ∧
    (r.isValid = false → r'.isValid = false)

theorem rowsMono_refl (l : List DataRow) : rowsMono l l :=
  ⟨rfl, fun _ r h => ⟨r, h, rfl, fun _ he => he, fun hv => hv⟩⟩

theorem rowsMono_trans {a b c : List DataRow} (h1 : rowsMono a b) (h2 : rowsMono b c) :
    rowsMono a c := by
  refine ⟨h2.1.trans h1.1, ?_⟩
  intro t r hr
  obtain ⟨r1, hr1, hd1, he1, hv1⟩ := h1.2 t r hr
  obtain ⟨r2, hr2, hd2, he2, hv2⟩ := h2.2 t r1 hr1
  exact ⟨r2, hr2, hd2.trans hd1, fun e he => he2 e (he1 e he), fun hv => hv2 (hv1 hv)⟩

theorem flaggedAt_mono {f : FieldConfig} {k : String} {l l' : List DataRow} {t : Nat}
    (hm : rowsMono l l') (hf : flaggedAt f k l t) : flaggedAt f k l' t := by
  obtain ⟨r, hr, ⟨e, he, hprop⟩, hv⟩ := hf
  obtain ⟨r', hr', _, hes, hvs⟩ := hm.2 t r hr
  exact ⟨r', hr', ⟨e, hes e he, hprop⟩, hvs hv⟩

theorem listModify_length {α : Type} (f : α → α) :
    ∀ (l : List α) (i : Nat), (listModify l i f).length = l.length := by
  intro l
  induction l with
  | nil => intro i; rfl
  | cons hd tl ih =>
      intro i
      cases i with
      | zero => rfl
      | succ n => simpa [listModify] using ih n

theorem listModify_get? {α : Type} (f : α → α) :
    ∀ (l : List α) (i t : Nat), (listModify l i f).get? t =
      if i = t then (l.get? t).map f else l.get? t := by
  intro l
  induction l with
  | nil => intro i t; cases i <;> cases t <;> simp [listModify]
  | cons hd tl ih =>
      intro i t
      cases i with
      | zero =>
          cases t with
          | zero => simp [listModify]
          | succ u => simp [listModify]
      | succ n =>
          cases t with
          | zero => simp [listModify]
          | succ u =>
              simp only [listModify, List.get?_cons_succ]
              rw [ih n u]
              by_cases h : n = u
              · rw [if_pos h, if_pos (by omega)]
              · rw [if_neg h, if_neg (by omega)]

/-- The flagging function applied to a row by `addDupError`. -/
def dupFlag (f : FieldConfig) (keyStr : String) (rowIdx : Nat) (r : DataRow) : DataRow :=
  { r with
    errors := r.errors ++ [⟨(rowIdx : Int), f.key,
      f.label ++ " must be unique. Duplicate value '" ++ keyStr ++ "' found", "error"⟩],
    isValid := false }

theorem addDupError_eq_modify (f : FieldConfig) (k : String) (i : Nat)
    (rows : List DataRow) : addDupError f k i rows = listModify rows i (dupFlag f k i) := rfl

theorem dupFlag_flagged (f : FieldConfig) (k : String) (i : Nat) (r : DataRow) :
    dupFlagged f k (dupFlag f k i r) := by
  refine ⟨⟨⟨(i : Int), f.key,
    f.label ++ " must be unique. Duplicate value '" ++ k ++ "' found", "error"⟩,
    ?_, rfl, rfl, rfl⟩, rfl⟩
  exact List.mem_append_right _ (List.mem_singleton.mpr rfl)

theorem addDupError_mono (f : FieldConfig) (k : String) (i : Nat)
    (rows : List DataRow) : rowsMono rows (addDupError f k i rows) := by
  rw [addDupError_eq_modify]
  refine ⟨listModify_length _ _ _, ?_⟩
  intro t r hr
  rw [listModify_get? _ _ i t]
  by_cases h : i = t
  · rw [if_pos h, hr]
    exact ⟨dupFlag f k i r, rfl, rfl, fun e he => List.mem_append_left _ he, fun _ => rfl⟩
  · rw [if_neg h, hr]
    exact ⟨r, rfl, rfl, fun _ he => he, fun hv => hv⟩

theorem addDupError_flags (f : FieldConfig) (k : String) (i : Nat)
    (rows : List DataRow) (r : DataRow) (hr : rows.get? i = some r) :
    flaggedAt f k (addDupError f k i rows) i := by
  rw [addDupError_eq_modify]
  refine ⟨dupFlag f k i r, ?_, dupFlag_flagged f k i r⟩
  rw [listModify_get? _ _ i i, if_pos rfl, hr]
  rfl

theorem uniqStep_mono (f : FieldConfig) (st : List DataRow × List (String × Nat))
    (idx : Nat) : rowsMono st.1 (uniqStep f st idx).1 := by
  unfold uniqStep
  cases hg : st.1.get? idx with
  | none => exact rowsMono_refl _
  | some r =>
      dsimp only
      by_cases hemp : objGet r.data f.key = .vundef ∨ objGet r.data f.key = .vnull ∨
          objGet r.data f.key = .vstr ""
      · rw [if_pos hemp]; exact rowsMono_refl _
      · rw [if_neg hemp]
        cases hf : st.2.find? (fun p => p.1 == jsToString (objGet r.data f.key)) with
        | none => exact rowsMono_refl _
        | some p => exact rowsMono_trans (addDupError_mono _ _ _ _) (addDupError_mono _ _ _ _)

theorem foldl_uniqStep_mono (f : FieldConfig) :
    ∀ (l : List Nat) (st : List DataRow × List (String × Nat)),
      rowsMono st.1 ((l.foldl (uniqStep f) st).1) := by
  intro l
  induction l with
  | nil => intro st; exact rowsMono_refl _
  | cons hd tl ih =>
      intro st
      rw [List.foldl_cons]
      exact rowsMono_trans (uniqStep_mono f st hd) (ih (uniqStep f st hd))

theorem uniquePassField_mono (rows : List DataRow) (f : FieldConfig) :
    rowsMono rows (uniquePassField rows f) :=
  foldl_uniqStep_mono f (List.range rows.length) (rows, [])

theorem uniquenessPass_mono (fields : List FieldConfig) (rows : List DataRow) :
    rowsMono rows (uniquenessPass fields rows) := by
  unfold uniquenessPass
  generalize fields.filter (fun f => f.unique) = l
  induction l generalizing rows with
  | nil => exact rowsMono_refl _
  | cons hd tl ih =>
      rw [List.foldl_cons]
      exact rowsMono_trans (uniquePassField_mono rows hd) (ih (uniquePassField rows hd))

/-- Index `t` holds a row whose value on field `f` is non-empty and
stringifies to `K`. -/
def rowValueK (f : FieldConfig) (K : String) (rows : List DataRow) (t : Nat) : Prop :=
  ∃ r, rows.get? t = some r ∧
    ¬(objGet r.data f.key = .vundef ∨ objGet r.data f.key = .vnull ∨
      objGet r.data f.key = .vstr "") ∧
    jsToString (objGet r.data f.key) = K

/-- Invariant of the uniqueness scan after processing indices `0..m-1`: the
row list only grew errors; the first-seen map has an entry for `K` exactly
when some processed index holds `K`, recording the least such index; and every
later processed index holding `K` is flagged, together with the first one. -/
def uniqInv (f : FieldConfig) (K : String) (rows : List DataRow) (m : Nat)
    (st : List DataRow × List (String × Nat)) : Prop :=
  rowsMono rows st.1 ∧
  ((∀ t, t < m → ¬ rowValueK f K rows t) → st.2.find? (fun p => p.1 == K) = none) ∧
  (∀ t0, t0 < m → rowValueK f K rows t0 → (∀ t, t < t0 → ¬ rowValueK f K rows t) →
    st.2.find? (fun p => p.1 == K) = some (K, t0) ∧
    (∀ t, t < m → rowValueK f K rows t → t ≠ t0 →
      flaggedAt f K st.1 t ∧ flaggedAt f K st.1 t0))

theorem uniqInv_succ_general (f : FieldConfig) (K : String) (rows : List DataRow)
    (m : Nat) (st st' : List DataRow × List (String × Nat))
    (h : uniqInv f K rows m st) (hnv : ¬ rowValueK f K rows m)
    (hm1 : rowsMono st.1 st'.1)
    (hm2 : st'.2.find? (fun p => p.1 == K) = st.2.find? (fun p => p.1 == K)) :
    uniqInv f K rows (m + 1) st' := by
  obtain ⟨hmono, hnone, hleast⟩ := h
  refine ⟨rowsMono_trans hmono hm1, ?_, ?_⟩
  · intro hall
    rw [hm2]
    exact hnone (fun t ht => hall t (by omega))
  · intro t0 ht0 hv0 hmin
    have ht0m : t0 < m := by
      rcases Nat.lt_succ_iff_lt_or_eq.mp ht0 with h' | h'
      · exact h'
      · exact absurd (h' ▸ hv0) hnv
    obtain ⟨hfind, hflags⟩ := hleast t0 ht0m hv0 hmin
    refine ⟨by rw [hm2]; exact hfind, ?_⟩
    intro t ht hv htne
    have htm : t < m := by
      rcases Nat.lt_succ_iff_lt_or_eq.mp ht with h' | h'
      · exact h'
      · exact absurd (h' ▸ hv) hnv
    obtain ⟨h1, h2⟩ := hflags t htm hv htne
    exact ⟨flaggedAt_mono hm1 h1, flaggedAt_mono hm1 h2⟩

theorem get?_some_of_lt {α : Type} (l : List α) (m : Nat) (h : m < l.length) :
    ∃ a, l.get? m = some a := by
  cases hg : l.get? m with
  | none => exact absurd (List.get?_eq_none.mp hg) (by omega)
  | some a => exact ⟨a, rfl⟩

theorem uniqStep_inv (f : FieldConfig) (K : String) (rows : List DataRow) (m : Nat)
    (st : List DataRow × List (String × Nat)) (h : uniqInv f K rows m st) :
    uniqInv f K rows (m + 1) (uniqStep f st m) := by
  classical
  obtain ⟨hmono, hnone, hleast⟩ := h
  unfold uniqStep
  cases hg : st.1.get? m with
  | none =>
      have hrows : rows.get? m = none := by
        have hlen : st.1.length ≤ m := List.get?_eq_none.mp hg
        have hlen1 := hmono.1
        exact List.get?_eq_none.mpr (by omega)
      have hnv : ¬ rowValueK f K rows m := by
        rintro ⟨r, hr, _⟩
        rw [hrows] at hr
        exact absurd hr (by simp)
      exact uniqInv_succ_general f K rows m st st ⟨hmono, hnone, hleast⟩ hnv
        (rowsMono_refl _) rfl
  | some r =>
      have hmlt : m < st.1.length := by
        by_contra hc
        rw [List.get?_eq_none.mpr (by omega)] at hg
        exact absurd hg (by simp)
      have hmltr : m < rows.length := by
        have := hmono.1
        omega
      obtain ⟨r0, hr0⟩ := get?_some_of_lt rows m hmltr
      obtain ⟨r1', hr1', hdata1, _, _⟩ := hmono.2 m r0 hr0
      have hr1 : r1' = r := Option.some.inj (hr1'.symm.trans hg)
      have hval : objGet r.data f.key = objGet r0.data f.key := by
        rw [← hr1, hdata1]
      dsimp only
      by_cases hemp : objGet r.data f.key = .vundef ∨ objGet r.data f.key = .vnull ∨
          objGet r.data f.key = .vstr ""
      · rw [if_pos hemp]
        have hnv : ¬ rowValueK f K rows m := by
          rintro ⟨r', hr', hne, _⟩
          have hre : r' = r0 := Option.some.inj (hr'.symm.trans hr0)
          subst hre
          exact hne (hval ▸ hemp)
        exact uniqInv_succ_general f K rows m st st ⟨hmono, hnone, hleast⟩ hnv
          (rowsMono_refl _) rfl
      · rw [if_neg hemp]
        by_cases hK : jsToString (objGet r.data f.key) = K
        · have hvm : rowValueK f K rows m :=
            ⟨r0, hr0, by rw [← hval]; exact hemp, by rw [← hval]; exact hK⟩
          cases hfind : st.2.find? (fun p => p.1 == jsToString (objGet r.data f.key)) with
          | none =>
              have hall : ∀ t, t < m → ¬ rowValueK f K rows t := by
                by_contra hc
                push_neg at hc
                obtain ⟨t, htm, hvt⟩ := hc
                have hex : ∃ u, rowValueK f K rows u := ⟨t, hvt⟩
                have ht0m : Nat.find hex < m := lt_of_le_of_lt (Nat.find_min' hex hvt) htm
                obtain ⟨hfind2, _⟩ := hleast (Nat.find hex) ht0m (Nat.find_spec hex)
                  (fun u hu => Nat.find_min hex hu)
                rw [hK] at hfind
                rw [hfind] at hfind2
                exact absurd hfind2 (by simp)
              refine ⟨hmono, ?_, ?_⟩
              · intro hall2
                exact absurd hvm (hall2 m (by omega))
              · intro t0 ht0 hv0 hmin
                have ht0e : t0 = m := by
                  rcases Nat.lt_succ_iff_lt_or_eq.mp ht0 with h' | h'
                  · exact absurd hv0 (hall t0 h')
                  · exact h'
                subst ht0e
                constructor
                · rw [List.find?_append, hnone hall, Option.none_or, hK]
                  simp [List.find?_singleton]
                · intro t ht hv htne
                  rcases Nat.lt_succ_iff_lt_or_eq.mp ht with h' | h'
                  · exact absurd hv (hall t h')
                  · exact absurd h' htne
          | some p =>
              have hex2 : ∃ t, t < m ∧ rowValueK f K rows t := by
                by_contra hc
                push_neg at hc
                have hn := hnone (fun t ht => hc t ht)
                rw [hK] at hfind
                rw [hn] at hfind
                exact absurd hfind (by simp)
              obtain ⟨tw, htw, hvtw⟩ := hex2
              have hex : ∃ u, rowValueK f K rows u := ⟨tw, hvtw⟩
              have hvt0 : rowValueK f K rows (Nat.find hex) := Nat.find_spec hex
              have ht0min : ∀ u, u < Nat.find hex → ¬ rowValueK f K rows u :=
                fun u hu => Nat.find_min hex hu
              have ht0m : Nat.find hex < m := lt_of_le_of_lt (Nat.find_min' hex hvtw) htw
              obtain ⟨hfind2, hflags⟩ := hleast (Nat.find hex) ht0m hvt0 ht0min
              have hpk : p = (K, Nat.find hex) := by
                rw [hK] at hfind
                exact Option.some.inj (hfind.symm.trans hfind2)
              rw [hpk]
              dsimp only
              rw [hK]
              have hmono1 : rowsMono st.1
                  (addDupError f K m (addDupError f K (Nat.find hex) st.1)) :=
                rowsMono_trans (addDupError_mono f K (Nat.find hex) st.1)
                  (addDupError_mono f K m _)
              refine ⟨rowsMono_trans hmono hmono1, ?_, ?_⟩
              · intro hall2
                exact absurd hvm (hall2 m (by omega))
              · intro t0' ht0' hv0' hmin'
                have ht0'e : t0' = Nat.find hex := by
                  have hle1 : Nat.find hex ≤ t0' := Nat.find_min' hex hv0'
                  have hle2 : ¬ (Nat.find hex < t0') := fun hc => hmin' _ hc hvt0
                  omega
                subst ht0'e
                refine ⟨hfind2, ?_⟩
                intro t ht hv htne
                have hflag_t0 : flaggedAt f K
                    (addDupError f K m (addDupError f K (Nat.find hex) st.1))
                    (Nat.find hex) := by
                  obtain ⟨rt0, hrt0⟩ := get?_some_of_lt st.1 (Nat.find hex) (by omega)
                  exact flaggedAt_mono (addDupError_mono f K m _)
                    (addDupError_flags f K (Nat.find hex) st.1 rt0 hrt0)
                rcases Nat.lt_succ_iff_lt_or_eq.mp ht with h' | h'
                · obtain ⟨hft, _⟩ := hflags t h' hv htne
                  exact ⟨flaggedAt_mono hmono1 hft, hflag_t0⟩
                · subst h'
                  have hinner : (addDupError f K (Nat.find hex) st.1).get? t = some r := by
                    rw [addDupError_eq_modify, listModify_get?]
                    rw [if_neg (by omega)]
                    exact hg
                  exact ⟨addDupError_flags f K t _ r hinner, hflag_t0⟩
        · have hnv : ¬ rowValueK f K rows m := by
            rintro ⟨r', hr', _, hk'⟩
            have hre : r' = r0 := Option.some.inj (hr'.symm.trans hr0)
            subst hre
            exact hK (by rw [hval]; exact hk')
          cases hfind : st.2.find? (fun p => p.1 == jsToString (objGet r.data f.key)) with
          | none =>
              refine uniqInv_succ_general f K rows m st _ ⟨hmono, hnone, hleast⟩ hnv
                (rowsMono_refl _) ?_
              show (st.2 ++ [(jsToString (objGet r.data f.key), m)]).find?
                  (fun p => p.1 == K) = st.2.find? (fun p => p.1 == K)
              rw [List.find?_append]
              have hsing : ([(jsToString (objGet r.data f.key), m)]).find?
                  (fun p => p.1 == K) = none := by
                simp [List.find?_singleton, hK]
              rw [hsing, Option.or_none]
          | some p =>
              refine uniqInv_succ_general f K rows m st _ ⟨hmono, hnone, hleast⟩ hnv ?_ rfl
              exact rowsMono_trans (addDupError_mono _ _ _ _) (addDupError_mono _ _ _ _)

theorem lt_of_get?_some {α : Type} {l : List α} {n : Nat} {a : α}
    (h : l.get? n = some a) : n < l.length := by
  by_contra hc
  rw [List.get?_eq_none.mpr (by omega)] at h
  exact absurd h (by simp)

theorem uniqInv_zero (f : FieldConfig) (K : String) (rows : List DataRow) :
    uniqInv f K rows 0 (rows, []) :=
  ⟨rowsMono_refl _, fun _ => rfl, fun t0 ht0 => absurd ht0 (by omega)⟩

theorem foldRange_inv (f : FieldConfig) (K : String) (rows : List DataRow) :
    ∀ n : Nat, uniqInv f K rows n ((List.range n).foldl (uniqStep f) (rows, [])) := by
  intro n
  induction n with
  | zero => exact uniqInv_zero f K rows
  | succ n ih =>
      rw [List.range_succ, List.foldl_append, List.foldl_cons, List.foldl_nil]
      exact uniqStep_inv f K rows n _ ih

/-- Symmetric flagging by the single-field uniqueness scan: when two row
indices hold the same non-empty stringified value, both are flagged. -/
theorem uniquePassField_flags (rows : List DataRow) (f : FieldConfig) (K : String)
    (i j : Nat) (hij : i < j) (hvi : rowValueK f K rows i) (hvj : rowValueK f K rows j) :
    flaggedAt f K (uniquePassField rows f) i ∧ flaggedAt f K (uniquePassField rows f) j := by
  classical
  have hjlen : j < rows.length := by
    obtain ⟨r, hr, _⟩ := hvj
    exact lt_of_get?_some hr
  obtain ⟨hmono, hnone, hleast⟩ := foldRange_inv f K rows rows.length
  have hex : ∃ u, rowValueK f K rows u := ⟨i, hvi⟩
  have hvt0 : rowValueK f K rows (Nat.find hex) := Nat.find_spec hex
  have ht0i : Nat.find hex ≤ i := Nat.find_min' hex hvi
  obtain ⟨_, hflags⟩ := hleast (Nat.find hex) (by omega) hvt0
    (fun u hu => Nat.find_min hex hu)
  have hfj := hflags j hjlen hvj (by omega)
  constructor
  · by_cases hie : i = Nat.find hex
    · exact hie ▸ hfj.2
    · exact (hflags i (by omega) hvi hie).1
  · exact hfj.1

/-- Invariant of the scan used to show rows with empty values are untouched:
every seen-map entry points at a non-empty row, and rows empty on `f` keep
their original value. -/
def uniqPres (f : FieldConfig) (rows : List DataRow)
    (st : List DataRow × List (String × Nat)) : Prop :=
  rowsMono rows st.1 ∧
  (∀ p ∈ st.2, ∃ r, rows.get? p.2 = some r ∧
    ¬(objGet r.data f.key = .vundef ∨ objGet r.data f.key = .vnull ∨
      objGet r.data f.key = .vstr "")) ∧
  (∀ t r, rows.get? t = some r →
    (objGet r.data f.key = .vundef ∨ objGet r.data f.key = .vnull ∨
      objGet r.data f.key = .vstr "") →
    st.1.get? t = some r)

theorem uniqPres_step (f : FieldConfig) (rows : List DataRow)
    (st : List DataRow × List (String × Nat)) (idx : Nat)
    (h : uniqPres f rows st) : uniqPres f rows (uniqStep f st idx) := by
  obtain ⟨hmono, hseen, hemp⟩ := h
  unfold uniqStep
  cases hg : st.1.get? idx with
  | none => exact ⟨hmono, hseen, hemp⟩
  | some r =>
      have hmlt : idx < st.1.length := lt_of_get?_some hg
      have hidxr : idx < rows.length := by
        have := hmono.1
        omega
      obtain ⟨r0, hr0⟩ := get?_some_of_lt rows idx hidxr
      obtain ⟨r1', hr1', hdata1, _, _⟩ := hmono.2 idx r0 hr0
      have hr1 : r1' = r := Option.some.inj (hr1'.symm.trans hg)
      have hval : objGet r.data f.key = objGet r0.data f.key := by
        rw [← hr1, hdata1]
      dsimp only
      by_cases hempv : objGet r.data f.key = .vundef ∨ objGet r.data f.key = .vnull ∨
          objGet r.data f.key = .vstr ""
      · rw [if_pos hempv]
        exact ⟨hmono, hseen, hemp⟩
      · rw [if_neg hempv]
        cases hfd : st.2.find? (fun p => p.1 == jsToString (objGet r.data f.key)) with
        | none =>
            refine ⟨hmono, ?_, hemp⟩
            intro p hp
            rcases List.mem_append.mp hp with hp1 | hp2
            · exact hseen p hp1
            · have hpe : p = (jsToString (objGet r.data f.key), idx) :=
                List.mem_singleton.mp hp2
              subst hpe
              exact ⟨r0, hr0, by rw [← hval]; exact hempv⟩
        | some p =>
            obtain ⟨rp, hrp, hrpne⟩ := hseen p (List.mem_of_find?_eq_some hfd)
            refine ⟨rowsMono_trans hmono (rowsMono_trans (addDupError_mono _ _ _ _)
              (addDupError_mono _ _ _ _)), hseen, ?_⟩
            intro t rt hrt hrtemp
            have htne1 : p.2 ≠ t := by
              intro hc
              subst hc
              have hre : rp = rt := Option.some.inj (hrp.symm.trans hrt)
              subst hre
              exact hrpne hrtemp
            have htne2 : idx ≠ t := by
              intro hc
              subst hc
              have hre : rt = r0 := Option.some.inj (hrt.symm.trans hr0)
              subst hre
              exact hempv (by rw [hval]; exact hrtemp)
            dsimp only
            rw [addDupError_eq_modify, listModify_get?, if_neg htne2,
                addDupError_eq_modify, listModify_get?, if_neg htne1]
            exact hemp t rt hrt hrtemp

theorem foldl_uniqPres (f : FieldConfig) (rows : List DataRow) :
    ∀ (l : List Nat) (st : List DataRow × List (String × Nat)),
      uniqPres f rows st → uniqPres f rows (l.foldl (uniqStep f) st) := by
  intro l
  induction l with
  | nil => intro st h; exact h
  | cons hd tl ih =>
      intro st h
      rw [List.foldl_cons]
      exact ih (uniqStep f st hd) (uniqPres_step f rows st hd h)

/-- A row whose value on `f` is empty/null/undefined is returned by the
single-field uniqueness scan literally unchanged. -/
theorem uniquePassField_empty_preserved (rows : List DataRow) (f : FieldConfig)
    (t : Nat) (r : DataRow) (hr : rows.get? t = some r)
    (hemp : objGet r.data f.key = .vundef ∨ objGet r.data f.key = .vnull ∨
      objGet r.data f.key = .vstr "") :
    (uniquePassField rows f).get? t = some r :=
  (foldl_uniqPres f rows (List.range rows.length) (rows, [])
    ⟨rowsMono_refl _, fun p hp => absurd hp (List.not_mem_nil p),
      fun _ _ h _ => h⟩).2.2 t r hr hemp

theorem foldl_uniquePassField_mono :
    ∀ (l : List FieldConfig) (rows : List DataRow),
      rowsMono rows (l.foldl uniquePassField rows) := by
  intro l
  induction l with
  | nil => intro rows; exact rowsMono_refl _
  | cons hd tl ih =>
      intro rows
      rw [List.foldl_cons]
      exact rowsMono_trans (uniquePassField_mono rows hd) (ih (uniquePassField rows hd))

/-- Transfer a non-empty value reading on the refined list back to the base
list (data is preserved by `rowsMono`). -/
theorem rowValueK_of_mono {f : FieldConfig} {K : String} {a b : List DataRow}
    (hm : rowsMono a b) {t : Nat} {r' : DataRow} (hr' : b.get? t = some r')
    (hne : ¬(objGet r'.data f.key = .vundef ∨ objGet r'.data f.key = .vnull ∨
      objGet r'.data f.key = .vstr ""))
    (hK : jsToString (objGet r'.data f.key) = K) : rowValueK f K a t := by
  have htlen : t < a.length := by
    have h1 : t < b.length := lt_of_get?_some hr'
    have := hm.1
    omega
  obtain ⟨r, hr⟩ := get?_some_of_lt a t htlen
  obtain ⟨r'', hr'', hd, _, _⟩ := hm.2 t r hr
  have hre : r'' = r' := Option.some.inj (hr''.symm.trans hr')
  subst hre
  refine ⟨r, hr, ?_, ?_⟩
  · rw [← hd]
    exact hne
  · rw [← hd]
    exact hK

/-- C5: For every field with unique = true, after a full processing pass
(`processImportedDataWithMappings`): whenever two rows of the output share the
same non-empty stringified value on that field, both the first-seen row and
the later row carry a duplicate-value error and have isValid = false (so a
third row sharing the same value is likewise flagged against the first
occurrence); and a row whose value for the field is empty, null, or undefined
is returned by the field's uniqueness scan literally unchanged, hence never
flagged by it. -/
theorem uniqueness_symmetry (env : JsEnv) (importedData : ImportedData)
    (fields : List FieldConfig) (pipeline : PipelineMappings)
    (registry : Option TransformRegistry) (vRegistry : Option ValidationRegistry)
    (f : FieldConfig) (hf : f ∈ fields) (hu : f.unique = true)
    (out : List DataRow)
    (hout : out = processImportedDataWithMappings env importedData fields pipeline
      registry vRegistry)
    (i j : Nat) (ri rj : DataRow) (hij : i < j)
    (hri : out.get? i = some ri) (hrj : out.get? j = some rj)
    (hnei : ¬(objGet ri.data f.key = .vundef ∨ objGet ri.data f.key = .vnull ∨
      objGet ri.data f.key = .vstr ""))
    (hnej : ¬(objGet rj.data f.key = .vundef ∨ objGet rj.data f.key = .vnull ∨
      objGet rj.data f.key = .vstr ""))
    (K : String)
    (hKi : jsToString (objGet ri.data f.key) = K)
    (hKj : jsToString (objGet rj.data f.key) = K) :
    (dupFlagged f K ri ∧ dupFlagged f K rj) ∧
    (∀ (rows : List DataRow) (t : Nat) (r : DataRow), rows.get? t = some r →
      (objGet r.data f.key = .vundef ∨ objGet r.data f.key = .vnull ∨
        objGet r.data f.key = .vstr "") →
      (uniquePassField rows f).get? t = some r) := by
  refine ⟨?_, fun rows t r hr he => uniquePassField_empty_preserved rows f t r hr he⟩
  have hfu : f ∈ fields.filter (fun g => g.unique) :=
    List.mem_filter.mpr ⟨hf, hu⟩
  obtain ⟨l1, l2, hsplit⟩ := List.append_of_mem hfu
  have hout2 : out = ((l1.foldl uniquePassField
      (importedData.rows.enum.map fun p =>
        processRowSingle env fields pipeline.fieldMappings registry vRegistry p.2 p.1)
      |> (fun a => uniquePassField a f))
      |> (fun b => l2.foldl uniquePassField b)) := by
    rw [hout]
    unfold processImportedDataWithMappings uniquenessPass
    rw [hsplit, List.foldl_append, List.foldl_cons]
  have hmAB : rowsMono (l1.foldl uniquePassField
      (importedData.rows.enum.map fun p =>
        processRowSingle env fields pipeline.fieldMappings registry vRegistry p.2 p.1))
      (uniquePassField (l1.foldl uniquePassField
        (importedData.rows.enum.map fun p =>
          processRowSingle env fields pipeline.fieldMappings registry vRegistry p.2 p.1)) f) :=
    uniquePassField_mono _ f
  have hmBO : rowsMono (uniquePassField (l1.foldl uniquePassField
      (importedData.rows.enum.map fun p =>
        processRowSingle env fields pipeline.fieldMappings registry vRegistry p.2 p.1)) f)
      out := by
    rw [hout2]
    exact foldl_uniquePassField_mono l2 _
  have hmAO : rowsMono (l1.foldl uniquePassField
      (importedData.rows.enum.map fun p =>
        processRowSingle env fields pipeline.fieldMappings registry vRegistry p.2 p.1))
      out := rowsMono_trans hmAB hmBO
  have hvi := rowValueK_of_mono hmAO hri hnei hKi
  have hvj := rowValueK_of_mono hmAO hrj hnej hKj
  obtain ⟨hfi, hfj⟩ := uniquePassField_flags _ f K i j hij hvi hvj
  obtain ⟨ri', hri', hdi⟩ := flaggedAt_mono hmBO hfi
  obtain ⟨rj', hrj', hdj⟩ := flaggedAt_mono hmBO hfj
  have hei : ri' = ri := Option.some.inj (hri'.symm.trans hri)
  have hej : rj' = rj := Option.some.inj (hrj'.symm.trans hrj)
  exact ⟨hei ▸ hdi, hej ▸ hdj⟩

theorem uniqueness_symmetry_witness :
    (dupFlagged { key := "email", label := "Email", type := "string", unique := true } "a"
        { id := "row-0", data := [("email", .vstr "a")],
          errors := [⟨0, "email", "Email must be unique. Duplicate value 'a' found", "error"⟩],
          isValid := false } ∧
      dupFlagged { key := "email", label := "Email", type := "string", unique := true } "a"
        { id := "row-1", data := [("email", .vstr "a")],
          errors := [⟨1, "email", "Email must be unique. Duplicate value 'a' found", "error"⟩],
          isValid := false }) ∧
    (∀ (rows : List DataRow) (t : Nat) (r : DataRow), rows.get? t = some r →
      (objGet r.data "email" = .vundef ∨ objGet r.data "email" = .vnull ∨
        objGet r.data "email" = .vstr "") →
      (uniquePassField rows
        { key := "email", label := "Email", type := "string", unique := true }).get? t =
        some r) :=
  uniqueness_symmetry noParseEnv ⟨["E"], [[("E", .vstr "a")], [("E", .vstr "a")]]⟩
    [{ key := "email", label := "Email", type := "string", unique := true }]
    ⟨[{ source := "E", target := "email" }]⟩ (some []) none
    { key := "email", label := "Email", type := "string", unique := true }
    (List.mem_singleton.mpr rfl) rfl
    [{ id := "row-0", data := [("email", .vstr "a")],
       errors := [⟨0, "email", "Email must be unique. Duplicate value 'a' found", "error"⟩],
       isValid := false },
     { id := "row-1", data := [("email", .vstr "a")],
       errors := [⟨1, "email", "Email must be unique. Duplicate value 'a' found", "error"⟩],
       isValid := false }]
    (by decide) 0 1
    { id := "row-0", data := [("email", .vstr "a")],
      errors := [⟨0, "email", "Email must be unique. Duplicate value 'a' found", "error"⟩],
      isValid := false }
    { id := "row-1", data := [("email", .vstr "a")],
      errors := [⟨1, "email", "Email must be unique. Duplicate value 'a' found", "error"⟩],
      isValid := false }
    (by decide) rfl rfl (by decide) (by decide) "a" rfl rfl

/-! ## C1: the auto-mapping assignment discipline -/

theorem insertDescBy_perm {α : Type} (keyf : α → ℚ) (a : α) :
    ∀ l : List α, (insertDescBy keyf a l).Perm (a :: l) := by
  intro l
  induction l with
  | nil => exact List.Perm.refl _
  | cons x xs ih =>
      unfold insertDescBy
      by_cases hlt : keyf a < keyf x
      · rw [if_pos hlt]
        exact (List.Perm.cons x ih).trans (List.Perm.swap a x xs)
      · rw [if_neg hlt]

theorem sortDescBy_perm {α : Type} (keyf : α → ℚ) :
    ∀ l : List α, (sortDescBy keyf l).Perm l := by
  intro l
  induction l with
  | nil => exact List.Perm.refl _
  | cons x xs ih =>
      unfold sortDescBy
      exact (insertDescBy_perm keyf x (sortDescBy keyf xs)).trans (List.Perm.cons x ih)

/-- Every candidate in a header's candidate list is a genuine field scored by
`candidateConfidence` strictly above the threshold. -/
theorem headerCandidateList_mem {fields : List FieldConfig} {thr : ℚ} {h : String}
    {c : Candidate} (hc : c ∈ headerCandidateList fields thr h) :
    ∃ field ∈ fields, field.key = c.key ∧ c.confidence = candidateConfidence h field ∧
      thr < c.confidence := by
  unfold headerCandidateList at hc
  have hc2 := (sortDescBy_perm Candidate.confidence _).mem_iff.mp hc
  obtain ⟨hmem, hpred⟩ := List.mem_filter.mp hc2
  obtain ⟨field, hfmem, hfe⟩ := List.mem_map.mp hmem
  refine ⟨field, hfmem, ?_, ?_, ?_⟩
  · rw [← hfe]
  · rw [← hfe]
  · exact of_decide_eq_true hpred

/-- The per-header greedy assignment step of `generateAutoMapping`'s fold. -/
def amStep (acc : List (String × Option String) × List String)
    (item : HeaderCandidates) : List (String × Option String) × List String :=
  match item.candidates.find? (fun c => !acc.2.contains c.key) with
  | some pick => ((item.header, some pick.key) :: acc.1, pick.key :: acc.2)
  | none => ((item.header, none) :: acc.1, acc.2)

theorem generateAutoMapping_eq_fold (headers : List String) (fields : List FieldConfig)
    (thr : ℚ) :
    generateAutoMapping headers fields thr =
      (List.foldl amStep ([], [])
        (sortDescBy HeaderCandidates.best (headers.map fun header =>
          HeaderCandidates.mk header (headerCandidateList fields thr header)
            ((((headerCandidateList fields thr header).head?).map
              Candidate.confidence).getD 0)))).1.reverse := rfl

/-- Invariant of the greedy assignment fold: assigned field keys are distinct,
recorded in the used-keys list, genuine above-threshold candidates for their
header, and a header with an empty candidate list is assigned `none`. -/
def amInv (fields : List FieldConfig) (thr : ℚ)
    (acc : List (String × Option String) × List String) : Prop :=
  (acc.1.filterMap Prod.snd).Nodup ∧
  (∀ k ∈ acc.1.filterMap Prod.snd, acc.2.contains k = true) ∧
  (∀ e ∈ acc.1, ∀ k, e.2 = some k →
    ∃ field ∈ fields, field.key = k ∧ thr < candidateConfidence e.1 field) ∧
  (∀ e ∈ acc.1, headerCandidateList fields thr e.1 = [] → e.2 = none)

theorem amStep_inv (fields : List FieldConfig) (thr : ℚ) (item : HeaderCandidates)
    (acc : List (String × Option String) × List String)
    (hg : item.candidates = headerCandidateList fields thr item.header)
    (h : amInv fields thr acc) : amInv fields thr (amStep acc item) := by
  obtain ⟨h1, h2, h3, h4⟩ := h
  unfold amStep
  cases hfind : item.candidates.find? (fun c => !acc.2.contains c.key) with
  | none =>
      refine ⟨h1, h2, ?_, ?_⟩
      · intro e he k hk
        rcases List.mem_cons.mp he with he1 | he2
        · subst he1
          exact absurd hk (by simp)
        · exact h3 e he2 k hk
      · intro e he hemp
        rcases List.mem_cons.mp he with he1 | he2
        · subst he1
          rfl
        · exact h4 e he2 hemp
  | some pick =>
      have hpmem : pick ∈ item.candidates := List.mem_of_find?_eq_some hfind
      have hppred := List.find?_some hfind
      have hpc : acc.2.contains pick.key = false := by
        cases hb : acc.2.contains pick.key
        · rfl
        · rw [hb] at hppred
          exact absurd hppred (by decide)
      have hpnotin : pick.key ∉ acc.1.filterMap Prod.snd := by
        intro hin
        rw [h2 pick.key hin] at hpc
        exact absurd hpc (by decide)
      obtain ⟨field, hfmem, hfkey, hfconf, hthr⟩ := headerCandidateList_mem (hg ▸ hpmem)
      refine ⟨?_, ?_, ?_, ?_⟩
      · simp only [List.filterMap_cons]
        exact List.nodup_cons.mpr ⟨hpnotin, h1⟩
      · intro k hk
        simp only [List.filterMap_cons] at hk
        rw [List.contains_cons]
        rcases List.mem_cons.mp hk with hk1 | hk2
        · subst hk1
          simp
        · rw [h2 k hk2]
          simp
      · intro e he k hk
        rcases List.mem_cons.mp he with he1 | he2
        · subst he1
          have hke : pick.key = k := by simpa using hk
          subst hke
          exact ⟨field, hfmem, hfkey, by rw [← hfconf]; exact hthr⟩
        · exact h3 e he2 k hk
      · intro e he hemp
        rcases List.mem_cons.mp he with he1 | he2
        · exfalso
          subst he1
          rw [hg, hemp] at hpmem
          exact absurd hpmem (List.not_mem_nil pick)
        · exact h4 e he2 hemp

theorem amFold_inv (fields : List FieldConfig) (thr : ℚ) :
    ∀ (l : List HeaderCandidates) (acc : List (String × Option String) × List String),
      (∀ it ∈ l, it.candidates = headerCandidateList fields thr it.header) →
      amInv fields thr acc →
      amInv fields thr (l.foldl amStep acc) ∧
        (l.foldl amStep acc).1.map Prod.fst =
          (l.map HeaderCandidates.header).reverse ++ acc.1.map Prod.fst := by
  intro l
  induction l with
  | nil => intro acc _ h; exact ⟨h, by simp⟩
  | cons hd tl ih =>
      intro acc hgen h
      rw [List.foldl_cons]
      have hstep := amStep_inv fields thr hd acc (hgen hd (List.mem_cons_self hd tl)) h
      obtain ⟨hinv, hmap⟩ := ih (amStep acc hd)
        (fun it ht => hgen it (List.mem_cons_of_mem hd ht)) hstep
      refine ⟨hinv, ?_⟩
      rw [hmap]
      have hfst : (amStep acc hd).1.map Prod.fst = hd.header :: acc.1.map Prod.fst := by
        unfold amStep
        cases hd.candidates.find? (fun c => !acc.2.contains c.key) <;> simp
      rw [hfst]
      simp

theorem map_header_mk (headers : List String) (fields : List FieldConfig) (thr : ℚ) :
    ((headers.map fun header =>
      HeaderCandidates.mk header (headerCandidateList fields thr header)
        ((((headerCandidateList fields thr header).head?).map
          Candidate.confidence).getD 0)).map HeaderCandidates.header) = headers := by
  rw [List.map_map]
  exact List.map_id' headers

unseal Rat.add Rat.sub Rat.mul Rat.inv in
/-- C1 counterexample: `generateAutoMapping` is a per-header greedy (headers
ordered by their best score), not the spec's global ranking of all
(header, field) pairs.  With headers `aaaaa`, `aaabb`, `bbbbbccccc` and fields
`x` (label `aaaaa`) / `y` (label `bbbbb`) at threshold 0, the implementation
maps `aaabb` to `y` while the globally-ranked algorithm leaves `aaabb`
unmapped (and gives `y` to `bbbbbccccc`). -/
theorem generateAutoMapping_not_global_rank :
    mappingLookup (generateAutoMapping ["aaaaa", "aaabb", "bbbbbccccc"]
      [{ key := "x", label := "aaaaa", type := "string" },
       { key := "y", label := "bbbbb", type := "string" }] 0) "aaabb" ≠
    mappingLookup (specGlobalRankMapping ["aaaaa", "aaabb", "bbbbbccccc"]
      [{ key := "x", label := "aaaaa", type := "string" },
       { key := "y", label := "bbbbb", type := "string" }] 0) "aaabb" := by decide

/-- C1 (amended): `generateAutoMapping` assigns headers to fields by a
per-header greedy — each header's candidates are the fields scoring strictly
above the threshold (sorted descending), headers are ordered by their best
candidate score, and each header takes its best not-yet-claimed candidate.
Consequently: the produced mapping's headers are a permutation of the input
headers; no two headers are assigned the same field key; every assigned key
is a genuine field whose candidate score strictly exceeds the threshold; and
a header with no qualifying candidate maps to null. -/
theorem generateAutoMapping_amended (headers : List String) (fields : List FieldConfig)
    (thr : ℚ) :
    ((generateAutoMapping headers fields thr).map Prod.fst).Perm headers ∧
    ((generateAutoMapping headers fields thr).filterMap Prod.snd).Nodup ∧
    (∀ e ∈ generateAutoMapping headers fields thr, ∀ k, e.2 = some k →
      ∃ field ∈ fields, field.key = k ∧ thr < candidateConfidence e.1 field) ∧
    (∀ h ∈ headers, headerCandidateList fields thr h = [] →
      mappingLookup (generateAutoMapping headers fields thr) h = some none) := by
  have hgen : ∀ it ∈ sortDescBy HeaderCandidates.best (headers.map fun header =>
      HeaderCandidates.mk header (headerCandidateList fields thr header)
        ((((headerCandidateList fields thr header).head?).map Candidate.confidence).getD 0)),
      it.candidates = headerCandidateList fields thr it.header := by
    intro it hit
    have hm := (sortDescBy_perm HeaderCandidates.best _).mem_iff.mp hit
    obtain ⟨h, _, he⟩ := List.mem_map.mp hm
    rw [← he]
  obtain ⟨⟨h1, h2, h3, h4⟩, hmap⟩ := amFold_inv fields thr
    (sortDescBy HeaderCandidates.best (headers.map fun header =>
      HeaderCandidates.mk header (headerCandidateList fields thr header)
        ((((headerCandidateList fields thr header).head?).map Candidate.confidence).getD 0)))
    ([], []) hgen ⟨List.nodup_nil, by simp, by simp, by simp⟩
  have hA : (generateAutoMapping headers fields thr).map Prod.fst =
      (sortDescBy HeaderCandidates.best (headers.map fun header =>
        HeaderCandidates.mk header (headerCandidateList fields thr header)
          ((((headerCandidateList fields thr header).head?).map
            Candidate.confidence).getD 0))).map HeaderCandidates.header := by
    rw [generateAutoMapping_eq_fold, List.map_reverse, hmap]
    simp
  have hmem : ∀ e, e ∈ generateAutoMapping headers fields thr ↔
      e ∈ (List.foldl amStep ([], [])
        (sortDescBy HeaderCandidates.best (headers.map fun header =>
          HeaderCandidates.mk header (headerCandidateList fields thr header)
            ((((headerCandidateList fields thr header).head?).map
              Candidate.confidence).getD 0)))).1 := by
    intro e
    rw [generateAutoMapping_eq_fold]
    exact List.mem_reverse
  refine ⟨?_, ?_, ?_, ?_⟩
  · rw [hA]
    refine ((sortDescBy_perm HeaderCandidates.best _).map HeaderCandidates.header).trans ?_
    rw [map_header_mk]
  · rw [generateAutoMapping_eq_fold, List.filterMap_reverse]
    exact List.nodup_reverse.mpr h1
  · intro e he k hk
    exact h3 e ((hmem e).mp he) k hk
  · intro h hh hempty
    have hinmap : h ∈ (generateAutoMapping headers fields thr).map Prod.fst := by
      rw [hA]
      refine ((sortDescBy_perm HeaderCandidates.best _).map HeaderCandidates.header).mem_iff.mpr ?_
      rw [map_header_mk]
      exact hh
    obtain ⟨e, hem, hefst⟩ := List.mem_map.mp hinmap
    have hsome : ((generateAutoMapping headers fields thr).find?
        (fun e => e.1 == h)).isSome :=
      List.find?_isSome.mpr ⟨e, hem, beq_iff_eq.mpr hefst⟩
    obtain ⟨a, ha⟩ := Option.isSome_iff_exists.mp hsome
    have hap := List.find?_some ha
    have hah : a.1 = h := eq_of_beq hap
    have ham : a ∈ generateAutoMapping headers fields thr := List.mem_of_find?_eq_some ha
    have hanone : a.2 = none := by
      refine h4 a ((hmem a).mp ham) ?_
      rw [hah]
      exact hempty
    unfold mappingLookup
    rw [ha, Option.map_some', hanone]

unseal Rat.add Rat.sub Rat.mul Rat.inv in
theorem generateAutoMapping_amended_witness :
    ((generateAutoMapping ["aaaaa", "aaabb", "bbbbbccccc"]
      [{ key := "x", label := "aaaaa", type := "string" },
       { key := "y", label := "bbbbb", type := "string" }] 0).map Prod.fst).Perm
        ["aaaaa", "aaabb", "bbbbbccccc"] ∧
    ((generateAutoMapping ["aaaaa", "aaabb", "bbbbbccccc"]
      [{ key := "x", label := "aaaaa", type := "string" },
       { key := "y", label := "bbbbb", type := "string" }] 0).filterMap Prod.snd).Nodup ∧
    (∀ e ∈ generateAutoMapping ["aaaaa", "aaabb", "bbbbbccccc"]
      [{ key := "x", label := "aaaaa", type := "string" },
       { key := "y", label := "bbbbb", type := "string" }] 0, ∀ k, e.2 = some k →
      ∃ field ∈ [{ key := "x", label := "aaaaa", type := "string" },
        { key := "y", label := "bbbbb", type := "string" }], FieldConfig.key field = k ∧
          0 < candidateConfidence e.1 field) ∧
    (∀ h ∈ ["aaaaa", "aaabb", "bbbbbccccc"],
      headerCandidateList [{ key := "x", label := "aaaaa", type := "string" },
        { key := "y", label := "bbbbb", type := "string" }] 0 h = [] →
      mappingLookup (generateAutoMapping ["aaaaa", "aaabb", "bbbbbccccc"]
        [{ key := "x", label := "aaaaa", type := "string" },
         { key := "y", label := "bbbbb", type := "string" }] 0) h = some none) :=
  generateAutoMapping_amended ["aaaaa", "aaabb", "bbbbbccccc"]
    [{ key := "x", label := "aaaaa", type := "string" },
     { key := "y", label := "bbbbb", type := "string" }] 0

end Filefeed
